import Mathlib

/-!
Verification development for the drag-to-reorder container
(`SortableContainer/index.js`, `SortableElement`, `utils.js`).

The JavaScript source is shallowly embedded: numbers become rationals
(`ℚ`), JS `undefined` array slots become `Option.none`, DOM style writes
become explicit result fields, and operations that can throw a runtime
`TypeError` or an `invariant` assertion are modelled with `Except` /
`Option` results.
-/

namespace SortableHoc

/-- A 2-d vector, mirroring the JS `{x, y}` translate objects. -/
structure V2 where
  x : ℚ
  y : ℚ
  deriving DecidableEq, Repr

/-- A cached edge offset, mirroring the JS `{top, left}` objects produced
by `getEdgeOffset`. -/
structure Edge where
  top : ℚ
  left : ℚ
  deriving DecidableEq, Repr

/-! ## utils.js -/

/-- `limit(min, max, value)` from `utils.js`: clamp `value` into
`[min, max]`, checking the lower bound first. -/
def limit (mn mx value : ℚ) : ℚ :=
  if value < mn then mn
  else if value > mx then mx
  else value

/-- `arrayMove(arr, previousIndex, newIndex)` from `utils.js`.
The input array is copied (`arr.slice(0)`); if `newIndex` is beyond the
end, the copy is padded with `newIndex - length + 1` trailing `undefined`
entries (the JS `while (k-- + 1) array.push(undefined)` loop); then
`array.splice(previousIndex, 1)[0]` removes the moved element and
`array.splice(newIndex, 0, item)` reinserts it.  JS `undefined` slots are
`Option.none`; `splice` insertion clamps its index to the array length. -/
def arrayMove (arr : List α) (previousIndex newIndex : ℕ) : List (Option α) :=
  let array : List (Option α) := arr.map some
  let array := if newIndex ≥ array.length
    then array ++ List.replicate (newIndex - array.length + 1) none
    else array
  let item := array.getD previousIndex none
  let array := array.eraseIdx previousIndex
  array.insertIdx (min newIndex array.length) item

/-! ## sortableContainer constructor (configuration check) -/

/-- The configuration options checked at construction time.  JS numbers
are rationals; a number is truthy iff it is nonzero. -/
structure ConstructorProps where
  distance : ℚ
  pressDelay : ℚ
  deriving DecidableEq, Repr

/-- The `invariant(!(props.distance && props.pressDelay), ...)` check in
the `sortableContainer` constructor: it throws a descriptive assertion
exactly when both options are truthy (nonzero). -/
def constructorCheck (p : ConstructorProps) : Except String Unit :=
  if p.distance ≠ 0 ∧ p.pressDelay ≠ 0 then
    Except.error "Attempted to set both pressDelay and distance on SortableContainer, you may only use one or the other, not both at the same time."
  else
    Except.ok ()

/-! ## Reflow engine (`animateNodes`)

The fields of `this` that `animateNodes` reads during an active drag,
and the per-item data held by the registry (`manager.getOrderedRefs()`).
The embedding covers sessions whose container is the drag origin or not;
in a non-origin container the JS `this.index` is `null`, whose numeric
comparisons coerce to `0`, so such sessions are represented with
`index = 0` and `isOrigin = false`. -/

/-- Tag passed to the hover-override callback (`'ABOVE'` / `'BELOW'`). -/
inductive GapPosition where
  | above
  | below
  deriving DecidableEq, Repr

/-- The argument object handed to the `onSortHover` callback. -/
structure HoverArgs where
  isOrigin : Bool
  draggedIndex : ℤ
  draggedTop : ℚ
  draggedBottom : ℚ
  targetIndex : ℤ
  targetTop : ℚ
  targetBottom : ℚ
  gapIndex : ℤ
  gapPosition : GapPosition

/-- The argument object handed to the `canSortDrop` callback. -/
structure DropArgs where
  isOrigin : Bool
  oldIndex : ℤ
  newIndex : ℤ
  collection : ℤ

/-- The drag-session fields of the container that `animateNodes` and its
callees consult (captured by `handlePress` / `updatePosition`). -/
structure Sorting where
  axisX : Bool
  axisY : Bool
  width : ℚ
  height : ℚ
  marginOffsetX : ℚ
  marginOffsetY : ℚ
  index : ℤ
  containerLeft : ℚ
  containerWidth : ℚ
  offsetEdge : Edge
  translate : V2
  scrollLeft : ℚ
  scrollTop : ℚ
  initialScrollLeft : ℚ
  initialScrollTop : ℚ
  pageXOffset : ℚ
  pageYOffset : ℚ
  initialWindowScrollLeft : ℚ
  initialWindowScrollTop : ℚ
  isOrigin : Bool
  transitionDuration : ℚ
  collection : ℤ
  onSortHover : Option (HoverArgs → Bool)
  canSortDrop : Option (DropArgs → Bool)

/-- One entry of `manager.getOrderedRefs()`: the item's current index,
its DOM extents, its (already cached) `edgeOffset`, and the
`sortableInfo.translate` it carries from the previous reflow pass. -/
structure NodeItem where
  index : ℤ
  width : ℚ
  height : ℚ
  edgeOffset : Edge
  translate : V2

/-- How one loop iteration of `animateNodes` updates `this.newIndex`:
nothing, `if (this.newIndex == null) this.newIndex = index`
(before-markers), or `this.newIndex = index` (after-markers). -/
inductive IndexUpdate where
  | keep
  | setIfNull (i : ℤ)
  | set (i : ℤ)
  deriving DecidableEq, Repr

/-- Fold one `IndexUpdate` into the running `this.newIndex` (JS `null`
is `Option.none`). -/
def applyUpdate (acc : Option ℤ) : IndexUpdate → Option ℤ
  | .keep => acc
  | .setIfNull i => match acc with
    | none => some i
    | some j => some j
  | .set i => some i

/-- `sortingOffset` as computed at the top of `animateNodes`:
`offsetEdge + this.translate + deltaScroll` where `deltaScroll` is the
scroll-container scroll delta since the session started. -/
def sortingOffsetOf (s : Sorting) : Edge :=
  ⟨s.offsetEdge.top + s.translate.y + (s.scrollTop - s.initialScrollTop),
   s.offsetEdge.left + s.translate.x + (s.scrollLeft - s.initialScrollLeft)⟩

/-- `scrollDifference` as computed at the top of `animateNodes`: the
window scroll delta since the session started. -/
def scrollDifferenceOf (s : Sorting) : Edge :=
  ⟨s.pageYOffset - s.initialWindowScrollTop,
   s.pageXOffset - s.initialWindowScrollLeft⟩

/-- The body of the first `animateNodes` loop for one non-dragged node:
computes the node's new translate and the `newIndex` update.  `so` and
`sd` are `sortingOffset` and `scrollDifference`; `next` / `prev` are the
cached edge offsets of the neighboring entries (JS `nodes[i ± 1]`), when
they exist.  Returns `none` where the JS code would throw: the grid
row-wrap branches dereference `nextNode.edgeOffset` /
`prevNode.edgeOffset` unconditionally, so a missing neighbor is a
`TypeError`. -/
def animateNode (s : Sorting) (so sd : Edge) (n : NodeItem)
    (next prev : Option Edge) : Option (V2 × IndexUpdate) :=
  let offsetW : ℚ := if s.width > n.width then n.width / 2 else s.width / 2
  let offsetH : ℚ := if s.height > n.height then n.height / 2 else s.height / 2
  if s.axisX then
    if s.axisY then
      -- Calculations for a grid setup
      if n.index < s.index ∧
          (((so.left + sd.left) - offsetW ≤ n.edgeOffset.left ∧
            (so.top + sd.top) ≤ n.edgeOffset.top + offsetH) ∨
           (so.top + sd.top) + offsetH ≤ n.edgeOffset.top) then
        -- left of / above the dragged node: move it to the right
        let tx : ℚ := s.width + s.marginOffsetX
        if n.edgeOffset.left + tx > s.containerWidth - offsetW then
          -- past the right bound: land on the next node's cached offset
          match next with
          | some nx =>
            some (⟨nx.left - n.edgeOffset.left, nx.top - n.edgeOffset.top⟩,
                  .setIfNull n.index)
          | none => none
        else
          some (⟨tx, 0⟩, .setIfNull n.index)
      else if n.index > s.index ∧
          (((so.left + sd.left) + offsetW ≥ n.edgeOffset.left ∧
            (so.top + sd.top) + offsetH ≥ n.edgeOffset.top) ∨
           (so.top + sd.top) + offsetH ≥ n.edgeOffset.top + n.height) then
        -- right of / below the dragged node: move it to the left
        let tx : ℚ := -(s.width + s.marginOffsetX)
        if n.edgeOffset.left + tx < s.containerLeft + offsetW then
          -- past the left bound: land on the previous node's cached offset
          match prev with
          | some pv =>
            some (⟨pv.left - n.edgeOffset.left, pv.top - n.edgeOffset.top⟩,
                  .set n.index)
          | none => none
        else
          some (⟨tx, 0⟩, .set n.index)
      else
        some (⟨0, 0⟩, .keep)
    else
      -- x-only axis
      if n.index > s.index ∧ (so.left + sd.left) + offsetW ≥ n.edgeOffset.left then
        some (⟨-(s.width + s.marginOffsetX), 0⟩, .set n.index)
      else if (s.isOrigin = false ∨ n.index < s.index) ∧
          (so.left + sd.left) ≤ n.edgeOffset.left + offsetW then
        some (⟨s.width + s.marginOffsetX, 0⟩, .setIfNull n.index)
      else
        some (⟨0, 0⟩, .keep)
  else if s.axisY then
    -- y-only axis
    let draggedTop := so.top + sd.top
    let draggedBottom := draggedTop + s.height
    let edgeTop := n.edgeOffset.top
    let edgeBottom := edgeTop + n.height
    if s.isOrigin = false ∨ n.index < s.index then
      let shouldTranslate : Bool :=
        match s.onSortHover with
        | some hover =>
          if draggedTop < edgeBottom ∧ draggedTop > edgeTop then
            let hoverFromBelow : Bool := n.translate.y = 0
            hover ⟨s.isOrigin, s.index, draggedTop, draggedBottom, n.index,
                   edgeTop, edgeBottom,
                   if hoverFromBelow then n.index + 1 else n.index,
                   if hoverFromBelow then GapPosition.below else GapPosition.above⟩
          else
            decide (draggedTop < edgeBottom)
        | none => decide (draggedTop < edgeBottom)
      if shouldTranslate then
        some (⟨0, s.height + s.marginOffsetY⟩, .setIfNull n.index)
      else
        some (⟨0, 0⟩, .keep)
    else if n.index > s.index then
      let shouldTranslate : Bool :=
        match s.onSortHover with
        | some hover =>
          if draggedBottom > edgeTop ∧ draggedBottom < edgeBottom then
            let hoverFromAbove : Bool := n.translate.y = 0
            hover ⟨s.isOrigin, s.index, draggedTop, draggedBottom, n.index,
                   edgeTop, edgeBottom,
                   if hoverFromAbove then n.index - 1 else n.index,
                   if hoverFromAbove then GapPosition.above else GapPosition.below⟩
          else
            decide (draggedBottom > edgeTop)
        | none => decide (draggedBottom > edgeTop)
      if shouldTranslate then
        some (⟨0, -(s.height + s.marginOffsetY)⟩, .set n.index)
      else
        some (⟨0, 0⟩, .keep)
    else
      some (⟨0, 0⟩, .keep)
  else
    some (⟨0, 0⟩, .keep)

/-- The `newIndex` update produced by one loop iteration, in isolation.
The update part of `animateNode` never depends on the neighbor offsets
(those only matter for the row-wrap translate), so it is recovered by
running `animateNode` with dummy neighbors present. -/
def nodeUpdate (s : Sorting) (so sd : Edge) (n : NodeItem) : IndexUpdate :=
  match animateNode s so sd n (some ⟨0, 0⟩) (some ⟨0, 0⟩) with
  | some (_, u) => u
  | none => .keep

/-- The first `animateNodes` loop over the ordered refs: skips the
dragged node (`index === this.index`, leaving its cached translate
untouched), runs `animateNode` on the others, and threads the running
`this.newIndex`.  Returns the per-node translates (in list order) and the
final accumulator, or `none` if an iteration threw. -/
def runNodes (s : Sorting) (so sd : Edge) :
    Option NodeItem → Option ℤ → List NodeItem → Option (List V2 × Option ℤ)
  | _, acc, [] => some ([], acc)
  | prev, acc, n :: rest =>
    if n.index = s.index then
      match runNodes s so sd (some n) acc rest with
      | some (ts, a) => some (n.translate :: ts, a)
      | none => none
    else
      match animateNode s so sd n ((rest.head?).map NodeItem.edgeOffset)
          (prev.map NodeItem.edgeOffset) with
      | none => none
      | some (t, u) =>
        match runNodes s so sd (some n) (applyUpdate acc u) rest with
        | some (ts, a) => some (t :: ts, a)
        | none => none

/-- The CSS text written to `node.style[Transform]`:
`translate3d(<x>px,<y>px,0)`. -/
def transformString (t : V2) : String :=
  "translate3d(" ++ toString t.x ++ "px," ++ toString t.y ++ "px,0)"

/-- The outcome of one `animateNodes` invocation. -/
structure AnimateResult where
  /-- `node.sortableInfo.translate` for every ordered ref, after the call. -/
  translates : List V2
  /-- The `Transform` style written to every ordered ref (the second loop
  writes one for each node whose `sortableInfo.translate` is set, which is
  every registered node — the dragged one included). -/
  transforms : List String
  /-- The `TransitionDuration` style written to the nodes, when the
  configured duration is truthy. -/
  transitionStyle : Option String
  /-- `this.newIndex` right after the `null` default was applied, before
  the drop-validation check. -/
  tentativeNewIndex : ℤ
  /-- `this.newIndex` at the end of the call. -/
  newIndex : ℤ
  deriving DecidableEq, Repr

/-- `animateNodes()`: recompute every sibling's translate, derive the
tentative `newIndex`, consult `canSortDrop`, and apply the styles.
`none` models a thrown `TypeError` (grid row-wrap with no neighbor). -/
def animateNodes (s : Sorting) (nodes : List NodeItem) : Option AnimateResult :=
  match runNodes s (sortingOffsetOf s) (scrollDifferenceOf s) none none nodes with
  | none => none
  | some (ts, acc) =>
    let newIndex0 : ℤ := acc.getD s.index
    let isDropAllowed : Bool :=
      match s.canSortDrop with
      | none => true
      | some p => p ⟨s.isOrigin, s.index, newIndex0, s.collection⟩
    let finalTs := if isDropAllowed then ts else ts.map (fun _ => (⟨0, 0⟩ : V2))
    some { translates := finalTs
           transforms := finalTs.map transformString
           transitionStyle :=
             if s.transitionDuration ≠ 0
             then some (toString s.transitionDuration ++ "ms")
             else none
           tentativeNewIndex := newIndex0
           newIndex := if isDropAllowed then newIndex0 else s.index }

/-! ## `updatePosition` and the lock-offset configuration -/

/-- The unit of a well-formed `lockOffset` string (`"…px"` or a percent
of the helper size). -/
inductive LockUnit where
  | px
  | percent
  deriving DecidableEq, Repr

/-- One `lockOffset` entry: a plain JS number, a string matching
`^[+-]?\d*(?:\.\d*)?(px|%)$` (carried as its parsed numeric value plus
unit), or a string the regex rejects.  JS numbers are rationals, so the
`isFinite` invariant in `getLockPixelOffset` always passes for the
representable values. -/
inductive LockOffsetValue where
  | num (v : ℚ)
  | str (v : ℚ) (unit : LockUnit)
  | malformed (raw : String)
  deriving DecidableEq, Repr

/-- The `lockOffset` prop: a scalar (duplicated into a pair by
`getLockPixelOffsets`) or an array, which must have exactly two entries. -/
inductive LockOffsetProp where
  | single (v : LockOffsetValue)
  | array (vs : List LockOffsetValue)
  deriving DecidableEq, Repr

/-- `getLockPixelOffset`: resolve one lock offset to pixels on each axis,
throwing the descriptive `invariant` on a malformed string. -/
def getLockPixelOffset (width height : ℚ) : LockOffsetValue → Except String V2
  | .num v => .ok ⟨v, v⟩
  | .str v u =>
    match u with
    | .px => .ok ⟨v, v⟩
    | .percent => .ok ⟨v * width / 100, v * height / 100⟩
  | .malformed raw =>
    .error ("lockOffset value should be a number or a string of a number followed by px or percent. Given " ++ raw)

/-- `getLockPixelOffsets`: normalize the prop to a `[min, max]` pair,
asserting that an array prop has exactly two entries. -/
def getLockPixelOffsets (width height : ℚ) : LockOffsetProp → Except String (V2 × V2)
  | .single v => do
    pure (← getLockPixelOffset width height v, ← getLockPixelOffset width height v)
  | .array vs =>
    match vs with
    | [a, b] => do
      pure (← getLockPixelOffset width height a, ← getLockPixelOffset width height b)
    | _ =>
      .error "lockOffset prop of SortableContainer should be a single value or an array of exactly two values."

/-- Per-axis min/max translate bounds; an axis that is not enabled never
gets its bound assigned (JS `undefined`). -/
structure Bounds where
  minX : Option ℚ
  minY : Option ℚ
  maxX : Option ℚ
  maxY : Option ℚ
  deriving DecidableEq, Repr

/-- The session fields `updatePosition` reads. -/
structure UpdateConfig where
  lockAxis : Option String
  lockToContainerEdges : Bool
  lockOffset : LockOffsetProp
  width : ℚ
  height : ℚ
  bounds : Bounds
  initialOffsetX : ℚ
  initialOffsetY : ℚ
  initialWindowScrollTop : ℚ
  initialWindowScrollLeft : ℚ

/-- A pointer-move event: page coordinates plus the current window
scroll. -/
structure PointerEventIn where
  pageX : ℚ
  pageY : ℚ
  winPageXOffset : ℚ
  winPageYOffset : ℚ

/-- The final `lockAxis` step of `updatePosition`: `'x'` forces
`translate.y = 0`, `'y'` forces `translate.x = 0`. -/
def lockAxisAdjust (lockAxis : Option String) (t : V2) : V2 :=
  if lockAxis = some "x" then ⟨t.x, 0⟩
  else if lockAxis = some "y" then ⟨0, t.y⟩
  else t

/-- `updatePosition(e)`: the value `this.translate` holds when the call
finishes, plus whether it completed.  The raw translate is assigned to
`this.translate` before the `lockToContainerEdges` block, so when
`getLockPixelOffsets` throws, the session keeps the raw (unclamped,
un-axis-locked) translate and the flag is `false`.  A clamp against an
unassigned (`undefined`) bound compares against `NaN`, which is false on
both sides, so `limit` returns the value unchanged. -/
def updatePositionResult (c : UpdateConfig) (e : PointerEventIn) : V2 × Bool :=
  let t0 : V2 :=
    ⟨e.pageX - c.initialOffsetX - (e.winPageXOffset - c.initialWindowScrollLeft),
     e.pageY - c.initialOffsetY - (e.winPageYOffset - c.initialWindowScrollTop)⟩
  if c.lockToContainerEdges then
    match getLockPixelOffsets c.width c.height c.lockOffset with
    | .error _ => (t0, false)
    | .ok (minLock, maxLock) =>
      let minOffset : V2 := ⟨c.width / 2 - minLock.x, c.height / 2 - minLock.y⟩
      let maxOffset : V2 := ⟨c.width / 2 - maxLock.x, c.height / 2 - maxLock.y⟩
      let tx : ℚ :=
        match c.bounds.minX, c.bounds.maxX with
        | some mn, some mx => limit (mn + minOffset.x) (mx - maxOffset.x) t0.x
        | _, _ => t0.x
      let ty : ℚ :=
        match c.bounds.minY, c.bounds.maxY with
        | some mn, some mx => limit (mn + minOffset.y) (mx - maxOffset.y) t0.y
        | _, _ => t0.y
      (lockAxisAdjust c.lockAxis ⟨tx, ty⟩, true)
  else
    (lockAxisAdjust c.lockAxis t0, true)

/-- The translate computed by `updatePosition`. -/
def updatePosition (c : UpdateConfig) (e : PointerEventIn) : V2 :=
  (updatePositionResult c e).1

/-- The CSS text `updatePosition` writes to the helper overlay:
`translate3d(<x>px,<y>px, 0)` — unlike the node-loop format, the source
template has a space before the trailing `0`. -/
def helperTransformString (t : V2) : String :=
  "translate3d(" ++ toString t.x ++ "px," ++ toString t.y ++ "px, 0)"

/-- The style written to the helper overlay when `updatePosition`
completes: the helper is positioned via its own translate. -/
def helperTransform (c : UpdateConfig) (e : PointerEventIn) : Option String :=
  match updatePositionResult c e with
  | (t, true) => some (helperTransformString t)
  | (_, false) => none

/-! ## Autoscroll controller -/

/-- The session fields `autoscroll` reads. -/
structure AutoscrollConfig where
  width : ℚ
  height : ℚ
  bounds : Bounds
  deriving DecidableEq, Repr

/-- First branch of the `autoscroll()` chain:
`translate.y >= this.maxTranslate.y - this.height / 2` scrolls down with
`speed.y = acceleration.y * Math.abs((maxTranslate.y - height / 2 - translate.y) / height)`.
A comparison against an unassigned bound is a `NaN` comparison, hence
false (`none` here). -/
def scrollDownBranch (a : AutoscrollConfig) (t : V2) : Option (V2 × V2) :=
  match a.bounds.maxY with
  | some m =>
    if t.y ≥ m - a.height / 2 then
      some (⟨0, 1⟩, ⟨1, 10 * |(m - a.height / 2 - t.y) / a.height|⟩)
    else none
  | none => none

/-- Second branch: scroll right when
`translate.x >= this.maxTranslate.x - this.width / 2`. -/
def scrollRightBranch (a : AutoscrollConfig) (t : V2) : Option (V2 × V2) :=
  match a.bounds.maxX with
  | some m =>
    if t.x ≥ m - a.width / 2 then
      some (⟨1, 0⟩, ⟨10 * |(m - a.width / 2 - t.x) / a.width|, 1⟩)
    else none
  | none => none

/-- Third branch: scroll up when
`translate.y <= this.minTranslate.y + this.height / 2`. -/
def scrollUpBranch (a : AutoscrollConfig) (t : V2) : Option (V2 × V2) :=
  match a.bounds.minY with
  | some m =>
    if t.y ≤ m + a.height / 2 then
      some (⟨0, -1⟩, ⟨1, 10 * |(t.y - a.height / 2 - m) / a.height|⟩)
    else none
  | none => none

/-- Fourth branch: scroll left when
`translate.x <= this.minTranslate.x + this.width / 2`. -/
def scrollLeftBranch (a : AutoscrollConfig) (t : V2) : Option (V2 × V2) :=
  match a.bounds.minX with
  | some m =>
    if t.x ≤ m + a.width / 2 then
      some (⟨-1, 0⟩, ⟨10 * |(t.x - a.width / 2 - m) / a.width|, 1⟩)
    else none
  | none => none

/-- The direction/speed computation at the top of `autoscroll()`: a
prioritized else-if chain (scroll down, else right, else up, else left);
when no branch fires, direction stays `(0, 0)` and both speeds keep
their initial value `1`. -/
def autoscrollDirection (a : AutoscrollConfig) (t : V2) : V2 × V2 :=
  match scrollDownBranch a t with
  | some r => r
  | none =>
    match scrollRightBranch a t with
    | some r => r
    | none =>
      match scrollUpBranch a t with
      | some r => r
      | none =>
        match scrollLeftBranch a t with
        | some r => r
        | none => (⟨0, 0⟩, ⟨1, 1⟩)

/-- The mutable state the autoscroll controller interacts with: the
helper translate, the scroll-container scroll position, and the repeating
interval (when set, it carries the per-tick offset
`(speed.x * direction.x, speed.y * direction.y)` captured when the
interval was started). -/
structure AutoState where
  translate : V2
  scrollTop : ℚ
  scrollLeft : ℚ
  timer : Option V2
  deriving DecidableEq, Repr

/-- The tail of `autoscroll()`: the running interval is always cleared,
then restarted with the freshly captured offset iff some direction is
non-zero. -/
def autoscrollRun (a : AutoscrollConfig) (st : AutoState) : AutoState :=
  let ds := autoscrollDirection a st.translate
  let direction := ds.1
  let speed := ds.2
  if direction.x ≠ 0 ∨ direction.y ≠ 0 then
    { st with timer := some ⟨1 * speed.x * direction.x, 1 * speed.y * direction.y⟩ }
  else
    { st with timer := none }

/-- One interval callback: increments the scroll position and the helper
translate by the captured offset (and then re-invokes `animateNodes`,
which does not touch these fields).  With no interval running, nothing
happens. -/
def autoscrollTick (st : AutoState) : AutoState :=
  match st.timer with
  | none => st
  | some off =>
    { st with
      scrollTop := st.scrollTop + off.y
      scrollLeft := st.scrollLeft + off.x
      translate := ⟨st.translate.x + off.x, st.translate.y + off.y⟩ }

/-- An event hitting an Active session: a pointer move
(`handleSortMove`: `updatePosition`, `animateNodes`, `autoscroll`) or an
autoscroll interval callback. -/
inductive SessionEvent where
  | move (e : PointerEventIn)
  | tick

/-- One step of the Active-session loop.  When `updatePosition` throws
(malformed lock offset), `handleSortMove` aborts after `this.translate`
was already assigned, so `autoscroll` does not run. -/
def stepSession (c : UpdateConfig) (a : AutoscrollConfig)
    (st : AutoState) : SessionEvent → AutoState
  | .move e =>
    let r := updatePositionResult c e
    let st1 := { st with translate := r.1 }
    if r.2 then autoscrollRun a st1 else st1
  | .tick => autoscrollTick st

/-! ## `cancel` / `handleSortEnd` (session teardown) -/

/-- The container-level state relevant to `cancel` and `handleSortEnd`.
`manager.active` is the active `{index, collection}` marker (`index` is
`null` in a non-origin container); `pressTimer` / `autoscrollTimer` /
`listeners` / `helper` record whether the corresponding resource is
live. -/
structure ContainerState where
  sorting : Bool
  pressTimer : Bool
  autoscrollTimer : Bool
  listeners : Bool
  helper : Bool
  active : Option (Option ℤ × ℤ)
  index : ℤ
  newIndex : ℤ
  deriving DecidableEq, Repr

/-- `cancel()`: while not sorting, clears the press timer
(`clearTimeout` is a no-op on an absent timer) and the active marker;
while sorting it does nothing.  It never throws. -/
def cancel (st : ContainerState) : ContainerState :=
  if st.sorting then st
  else { st with pressTimer := false, active := none }

/-- The commit payload handed to `onSortEnd`. -/
structure CommitPayload where
  oldIndex : ℤ
  newIndex : ℤ
  collection : ℤ
  deriving DecidableEq, Repr

/-- `handleSortEnd(e)`: its first statement destructures
`this.manager.active`, which throws a `TypeError` when the marker is
`null`; otherwise it removes listeners and helper, resets every item's
translate and styles, clears the autoscroll interval, nulls the marker,
leaves the sorting state, and emits `{oldIndex, newIndex, collection}`. -/
def handleSortEnd (st : ContainerState) :
    Except String (ContainerState × CommitPayload) :=
  match st.active with
  | none => .error "TypeError: cannot destructure property collection of null"
  | some (_, collection) =>
    .ok ({ st with
            listeners := false
            helper := false
            autoscrollTimer := false
            active := none
            sorting := false },
         ⟨st.index, st.newIndex, collection⟩)

/-! ## A whole drag session (for the drop-veto property) -/

/-- Replace each node's `sortableInfo.translate` with the values the last
reflow pass stored. -/
def updateNodeTranslates (nodes : List NodeItem) (ts : List V2) : List NodeItem :=
  List.zipWith (fun n t => { n with translate := t }) nodes ts

/-- Run a sequence of pointer moves over an Active session: each move is
one `animateNodes` invocation (with that move's session geometry), which
rewrites the stored translates and `this.newIndex`. -/
def runMoves (nodes : List NodeItem) (newIndex : ℤ) :
    List Sorting → Option (List NodeItem × ℤ)
  | [] => some (nodes, newIndex)
  | s :: rest =>
    match animateNodes s nodes with
    | none => none
    | some r => runMoves (updateNodeTranslates nodes r.translates) r.newIndex rest

/-- A concrete y-only-axis origin drag session: dragged element 100 tall
(10 margin), helper translate y = 20. -/
def ySample : Sorting :=
  { axisX := false, axisY := true, width := 100, height := 100,
    marginOffsetX := 10, marginOffsetY := 10, index := 0,
    containerLeft := 0, containerWidth := 400,
    offsetEdge := ⟨0, 0⟩, translate := ⟨0, 20⟩,
    scrollLeft := 0, scrollTop := 0, initialScrollLeft := 0, initialScrollTop := 0,
    pageXOffset := 0, pageYOffset := 0,
    initialWindowScrollLeft := 0, initialWindowScrollTop := 0,
    isOrigin := true, transitionDuration := 300, collection := 0,
    onSortHover := none, canSortDrop := none }

/-- The same session on the x-only axis, helper translate x = 60. -/
def xSample : Sorting :=
  { ySample with axisX := true, axisY := false, translate := ⟨60, 0⟩ }

/-- A neighbor at index 1 whose cached edge offset is (top 100, left 100). -/
def nodeSample : NodeItem :=
  { index := 1, width := 100, height := 100, edgeOffset := ⟨100, 100⟩,
    translate := ⟨0, 0⟩ }

/-- The dragged item itself (index 0) with zeroed stored translate. -/
def dragNode : NodeItem :=
  { index := 0, width := 100, height := 100, edgeOffset := ⟨0, 0⟩,
    translate := ⟨0, 0⟩ }

/-- The y-axis sample session with an always-vetoing `canSortDrop`. -/
def vetoSample : Sorting :=
  { ySample with canSortDrop := some (fun _ => false) }

/-- The ordered refs of the sample sessions: the dragged item and one
neighbor. -/
def vetoNodes : List NodeItem := [dragNode, nodeSample]

/-- The reflow outcome of `vetoSample` over `vetoNodes`. -/
def vetoResult : AnimateResult :=
  ⟨[⟨0, 0⟩, ⟨0, 0⟩], ["translate3d(0px,0px,0)", "translate3d(0px,0px,0)"],
   some "300ms", 1, 0⟩

/-- A grid session (both axes) dragging item 4 in a 150-wide container. -/
def gridSample : Sorting :=
  { ySample with axisX := true, axisY := true, index := 4, containerWidth := 150 }

/-- A grid neighbor at index 0 whose cached edge offset is the origin. -/
def gridNode : NodeItem :=
  { index := 0, width := 100, height := 100, edgeOffset := ⟨0, 0⟩,
    translate := ⟨0, 0⟩ }

/-- The reflow outcome of the (vetoless) y-axis sample session. -/
def ySampleResult : AnimateResult :=
  ⟨[⟨0, 0⟩, ⟨0, -110⟩], ["translate3d(0px,0px,0)", "translate3d(0px,-110px,0)"],
   some "300ms", 1, 1⟩

/-- Holds of the after-marker update `this.newIndex = index`. -/
def isSetUpdate : IndexUpdate → Prop
  | .set _ => True
  | _ => False

/-- The `newIndex` update a node contributes to the loop: the dragged
node is skipped (`continue`), the others contribute `nodeUpdate`. -/
def updateOf (s : Sorting) (so sd : Edge) (n : NodeItem) : IndexUpdate :=
  if n.index = s.index then .keep else nodeUpdate s so sd n

theorem arrayMove_eq_of_lt {α : Type} (arr : List α) (previousIndex newIndex : ℕ)
    (hp : previousIndex < arr.length) (hn : newIndex < arr.length) :
    arrayMove arr previousIndex newIndex
      = ((arr.map some).eraseIdx previousIndex).insertIdx newIndex
          (some (arr.get ⟨previousIndex, hp⟩)) := by
  have hlen : (arr.map some).length = arr.length := List.length_map _ _
  have hcond : ¬ newIndex ≥ (arr.map some).length := by omega
  have hitem : (arr.map some).getD previousIndex none
      = some (arr.get ⟨previousIndex, hp⟩) := by
    rw [List.getD_eq_getElem?_getD, List.getElem?_eq_getElem (by omega)]
    simp
  have hminlen : ((arr.map some).eraseIdx previousIndex).length = arr.length - 1 := by
    rw [List.length_eraseIdx]
    simp [hlen, hp]
  have hmin : min newIndex ((arr.map some).eraseIdx previousIndex).length = newIndex := by
    omega
  simp only [arrayMove, if_neg hcond, hitem, hmin]

theorem arrayMove_eq_of_ge {α : Type} (arr : List α) (previousIndex newIndex : ℕ)
    (hp : previousIndex < arr.length) (hn : arr.length ≤ newIndex) :
    arrayMove arr previousIndex newIndex
      = (arr.map some).eraseIdx previousIndex
          ++ List.replicate (newIndex - arr.length + 1) none
          ++ [some (arr.get ⟨previousIndex, hp⟩)] := by
  have hlen : (arr.map some).length = arr.length := List.length_map _ _
  have hcond : newIndex ≥ (arr.map some).length := by omega
  have hitem : ((arr.map some) ++ List.replicate (newIndex - (arr.map some).length + 1) none).getD previousIndex none
      = some (arr.get ⟨previousIndex, hp⟩) := by
    rw [List.getD_eq_getElem?_getD, List.getElem?_append_left (by omega),
      List.getElem?_eq_getElem (by omega)]
    simp
  have herase : ((arr.map some) ++ List.replicate (newIndex - (arr.map some).length + 1) none).eraseIdx previousIndex
      = (arr.map some).eraseIdx previousIndex ++ List.replicate (newIndex - arr.length + 1) none := by
    rw [List.eraseIdx_append_of_lt_length (by omega), hlen]
  have herlen : ((arr.map some).eraseIdx previousIndex ++ List.replicate (newIndex - arr.length + 1) none).length = newIndex := by
    rw [List.length_append, List.length_eraseIdx, List.length_replicate]
    simp [hlen, hp]
    omega
  simp only [arrayMove, if_pos hcond, hitem, herase]
  have hins := List.insertIdx_length_self
    ((arr.map some).eraseIdx previousIndex ++ List.replicate (newIndex - arr.length + 1) none)
    (some (arr.get ⟨previousIndex, hp⟩))
  rw [herlen] at hins
  rw [herlen, min_self, hins]

theorem get_cons_eraseIdx_perm {α : Type} (l : List α) (n : ℕ) (h : n < l.length) :
    List.Perm ((l.get ⟨n, h⟩) :: l.eraseIdx n) l := by
  rw [List.eraseIdx_eq_take_drop_succ]
  conv_rhs => rw [← List.take_append_drop n l]
  rw [List.drop_eq_getElem_cons h]
  exact (List.perm_middle).symm.trans (by simp)

/-- C10: `arrayMove` returns a fresh array (value semantics in this
embedding).  In range, the result keeps the length, puts the element
formerly at `previousIndex` at `newIndex`, preserves the relative order
of the remaining elements (deleting the moved element from the result
recovers the original minus that element), and is a permutation of the
input.  Out of range, the result is the input minus the moved element,
padded with `undefined` slots, with the moved element landing at index
`newIndex`. -/
theorem arrayMove_spec {α : Type} (arr : List α) (previousIndex newIndex : ℕ)
    (hp : previousIndex < arr.length) :
    (newIndex < arr.length →
      (arrayMove arr previousIndex newIndex).length = arr.length
      ∧ (arrayMove arr previousIndex newIndex).getD newIndex none
          = some (arr.get ⟨previousIndex, hp⟩)
      ∧ (arrayMove arr previousIndex newIndex).eraseIdx newIndex
          = (arr.map some).eraseIdx previousIndex
      ∧ List.Perm (arrayMove arr previousIndex newIndex) (arr.map some))
    ∧ (arr.length ≤ newIndex →
      arrayMove arr previousIndex newIndex
        = (arr.map some).eraseIdx previousIndex
            ++ List.replicate (newIndex - arr.length + 1) none
            ++ [some (arr.get ⟨previousIndex, hp⟩)]
      ∧ (arrayMove arr previousIndex newIndex).length = newIndex + 1
      ∧ (arrayMove arr previousIndex newIndex).getD newIndex none
          = some (arr.get ⟨previousIndex, hp⟩)) := by
  have hlen : (arr.map some).length = arr.length := List.length_map _ _
  constructor
  · intro hn
    have herlen : ((arr.map some).eraseIdx previousIndex).length = arr.length - 1 := by
      rw [List.length_eraseIdx]
      simp [hlen, hp]
    have hle : newIndex ≤ ((arr.map some).eraseIdx previousIndex).length := by omega
    rw [arrayMove_eq_of_lt arr previousIndex newIndex hp hn]
    refine ⟨?_, ?_, ?_, ?_⟩
    · rw [List.length_insertIdx _ _ hle, herlen]
      omega
    · rw [List.getD_eq_getElem?_getD,
        List.getElem?_eq_getElem (by rw [List.length_insertIdx _ _ hle]; omega)]
      rw [List.getElem_insertIdx_self _ _ _ hle]
      rfl
    · exact List.eraseIdx_insertIdx _ _
    · have hpm : previousIndex < (arr.map some).length := by omega
      have hget : (arr.map some).get ⟨previousIndex, hpm⟩
          = some (arr.get ⟨previousIndex, hp⟩) := by simp
      have hperm := get_cons_eraseIdx_perm (arr.map some) previousIndex hpm
      rw [hget] at hperm
      exact (List.perm_insertIdx _ _ hle).trans hperm
  · intro hn
    have heq := arrayMove_eq_of_ge arr previousIndex newIndex hp hn
    have herlen : ((arr.map some).eraseIdx previousIndex).length = arr.length - 1 := by
      rw [List.length_eraseIdx]
      simp [hlen, hp]
    refine ⟨heq, ?_, ?_⟩
    · rw [heq]
      simp only [List.length_append, List.length_replicate, List.length_cons,
        List.length_nil, herlen]
      omega
    · rw [heq, List.getD_eq_getElem?_getD,
        List.getElem?_eq_getElem (by
          simp only [List.length_append, List.length_replicate, List.length_cons,
            List.length_nil, herlen]
          omega)]
      rw [List.getElem_append_right (by
        simp only [List.length_append, List.length_replicate, herlen]
        omega)]
      simp only [List.length_append, List.length_replicate, herlen]
      have : newIndex - (arr.length - 1 + (newIndex - arr.length + 1)) = 0 := by omega
      simp [this]

/-- C7: setting both a truthy `distance` and a truthy `pressDelay` makes
the constructor throw its descriptive assertion; with at most one truthy
the constructor does not assert. -/
theorem constructor_distance_pressDelay_exclusive (p : ConstructorProps) :
    (p.distance ≠ 0 → p.pressDelay ≠ 0 →
      constructorCheck p = Except.error "Attempted to set both pressDelay and distance on SortableContainer, you may only use one or the other, not both at the same time.")
    ∧ (p.distance = 0 ∨ p.pressDelay = 0 → constructorCheck p = Except.ok ()) := by
  constructor
  · intro h1 h2
    simp [constructorCheck, h1, h2]
  · intro h
    rcases h with h | h <;> simp [constructorCheck, h]

theorem constructor_distance_pressDelay_exclusive_witness :
    constructorCheck ⟨5, 200⟩ = Except.error "Attempted to set both pressDelay and distance on SortableContainer, you may only use one or the other, not both at the same time."
    ∧ constructorCheck ⟨5, 0⟩ = Except.ok () :=
  ⟨(constructor_distance_pressDelay_exclusive ⟨5, 200⟩).1 (by norm_num) (by norm_num),
   (constructor_distance_pressDelay_exclusive ⟨5, 0⟩).2 (Or.inr rfl)⟩

/-- C4 as stated is false: `handleSortEnd` with a `null` active marker
throws while destructuring `this.manager.active`. -/
theorem handleSortEnd_null_marker_faults :
    handleSortEnd ⟨false, false, false, false, false, none, 0, 0⟩
      = Except.error "TypeError: cannot destructure property collection of null" := rfl

/-- C4 amended: `cancel()` never faults, is idempotent, and with no
session clears the press timer and the active marker; `handleSortEnd`,
by contrast, faults whenever the active marker is `null`, and performs
its timer/listener cleanup only when a marker exists. -/
theorem cancel_no_session_noop_end_faults (st : ContainerState) :
    cancel (cancel st) = cancel st
    ∧ (st.sorting = false →
        (cancel st).pressTimer = false ∧ (cancel st).active = none)
    ∧ (st.active = none →
        handleSortEnd st
          = Except.error "TypeError: cannot destructure property collection of null")
    ∧ (∀ idx col, st.active = some (idx, col) →
        ∃ st2, handleSortEnd st = Except.ok (st2, ⟨st.index, st.newIndex, col⟩)
          ∧ st2.autoscrollTimer = false ∧ st2.listeners = false
          ∧ st2.helper = false ∧ st2.active = none ∧ st2.sorting = false) := by
  refine ⟨?_, ?_, ?_, ?_⟩
  · by_cases h : st.sorting <;> simp [cancel, h]
  · intro h
    simp [cancel, h]
  · intro h
    simp [handleSortEnd, h]
  · intro idx col h
    refine ⟨{ st with listeners := false, helper := false, autoscrollTimer := false, active := none, sorting := false }, ?_, rfl, rfl, rfl, rfl, rfl⟩
    simp [handleSortEnd, h]

theorem cancel_no_session_noop_end_faults_witness :
    cancel (cancel ⟨false, true, true, true, true, none, 3, 4⟩)
        = cancel ⟨false, true, true, true, true, none, 3, 4⟩
    ∧ (cancel ⟨false, true, true, true, true, none, 3, 4⟩).active = none :=
  ⟨(cancel_no_session_noop_end_faults ⟨false, true, true, true, true, none, 3, 4⟩).1,
   ((cancel_no_session_noop_end_faults ⟨false, true, true, true, true, none, 3, 4⟩).2.1 rfl).2⟩

/-- C8 as stated is false: the chain gives the y axis no direction when
the scroll-right branch fired first, even though the translate sits
within half an element-extent of the min y bound (40 is within 100/2 of
the bound 0). -/
theorem autoscroll_not_independent_per_axis :
    (autoscrollDirection ⟨100, 100, ⟨some 0, some 0, some 1000, some 1000⟩⟩
        ⟨960, 40⟩).1.y = 0
    ∧ (40 : ℚ) ≤ 0 + 100 / 2 := by
  constructor
  · norm_num [autoscrollDirection, scrollDownBranch, scrollRightBranch]
  · norm_num

/-- `scrollDownBranch` with an assigned max y bound, as an `if`. -/
theorem scrollDownBranch_spec (a : AutoscrollConfig) (t : V2) (m : ℚ)
    (hm : a.bounds.maxY = some m) :
    scrollDownBranch a t
      = if t.y ≥ m - a.height / 2
        then some (⟨0, 1⟩, ⟨1, 10 * |(m - a.height / 2 - t.y) / a.height|⟩)
        else none := by
  unfold scrollDownBranch
  rw [hm]

/-- `scrollUpBranch` with an assigned min y bound, as an `if`. -/
theorem scrollUpBranch_spec (a : AutoscrollConfig) (t : V2) (m : ℚ)
    (hm : a.bounds.minY = some m) :
    scrollUpBranch a t
      = if t.y ≤ m + a.height / 2
        then some (⟨0, -1⟩, ⟨1, 10 * |(t.y - a.height / 2 - m) / a.height|⟩)
        else none := by
  unfold scrollUpBranch
  rw [hm]

/-- `scrollRightBranch` with an assigned max x bound, as an `if`. -/
theorem scrollRightBranch_spec (a : AutoscrollConfig) (t : V2) (m : ℚ)
    (hm : a.bounds.maxX = some m) :
    scrollRightBranch a t
      = if t.x ≥ m - a.width / 2
        then some (⟨1, 0⟩, ⟨10 * |(m - a.width / 2 - t.x) / a.width|, 1⟩)
        else none := by
  unfold scrollRightBranch
  rw [hm]

/-- `scrollLeftBranch` with an assigned min x bound, as an `if`. -/
theorem scrollLeftBranch_spec (a : AutoscrollConfig) (t : V2) (m : ℚ)
    (hm : a.bounds.minX = some m) :
    scrollLeftBranch a t
      = if t.x ≤ m + a.width / 2
        then some (⟨-1, 0⟩, ⟨10 * |(t.x - a.width / 2 - m) / a.width|, 1⟩)
        else none := by
  unfold scrollLeftBranch
  rw [hm]

theorem scrollDownBranch_dir {a : AutoscrollConfig} {t : V2} {r : V2 × V2}
    (h : scrollDownBranch a t = some r) : r.1 = ⟨0, 1⟩ := by
  unfold scrollDownBranch at h
  rcases hmy : a.bounds.maxY with _ | m
  · rw [hmy] at h
    simp at h
  · rw [hmy] at h
    dsimp only at h
    split_ifs at h
    cases h
    rfl

theorem scrollRightBranch_dir {a : AutoscrollConfig} {t : V2} {r : V2 × V2}
    (h : scrollRightBranch a t = some r) : r.1 = ⟨1, 0⟩ := by
  unfold scrollRightBranch at h
  rcases hmx : a.bounds.maxX with _ | m
  · rw [hmx] at h
    simp at h
  · rw [hmx] at h
    dsimp only at h
    split_ifs at h
    cases h
    rfl

theorem scrollUpBranch_dir {a : AutoscrollConfig} {t : V2} {r : V2 × V2}
    (h : scrollUpBranch a t = some r) : r.1 = ⟨0, -1⟩ := by
  unfold scrollUpBranch at h
  rcases hmy : a.bounds.minY with _ | m
  · rw [hmy] at h
    simp at h
  · rw [hmy] at h
    dsimp only at h
    split_ifs at h
    cases h
    rfl

theorem scrollLeftBranch_dir {a : AutoscrollConfig} {t : V2} {r : V2 × V2}
    (h : scrollLeftBranch a t = some r) : r.1 = ⟨-1, 0⟩ := by
  unfold scrollLeftBranch at h
  rcases hmx : a.bounds.minX with _ | m
  · rw [hmx] at h
    simp at h
  · rw [hmx] at h
    dsimp only at h
    split_ifs at h
    cases h
    rfl

/-- With the scroll-down branch declined, no later branch can set the y
direction to 1. -/
theorem dir_y_ne_one_of_down_none (a : AutoscrollConfig) (t : V2)
    (h : scrollDownBranch a t = none) : (autoscrollDirection a t).1.y ≠ 1 := by
  simp only [autoscrollDirection, h]
  rcases h2 : scrollRightBranch a t with _ | r2
  · rcases h3 : scrollUpBranch a t with _ | r3
    · rcases h4 : scrollLeftBranch a t with _ | r4
      · norm_num
      · rw [scrollLeftBranch_dir h4]
        norm_num
    · rw [scrollUpBranch_dir h3]
      norm_num
  · rw [scrollRightBranch_dir h2]
    norm_num

/-- With the scroll-right branch declined, no other branch can set the x
direction to 1. -/
theorem dir_x_ne_one_of_right_none (a : AutoscrollConfig) (t : V2)
    (h : scrollRightBranch a t = none) : (autoscrollDirection a t).1.x ≠ 1 := by
  rcases h1 : scrollDownBranch a t with _ | r1
  · simp only [autoscrollDirection, h1, h]
    rcases h3 : scrollUpBranch a t with _ | r3
    · rcases h4 : scrollLeftBranch a t with _ | r4
      · norm_num
      · rw [scrollLeftBranch_dir h4]
        norm_num
    · rw [scrollUpBranch_dir h3]
      norm_num
  · simp only [autoscrollDirection, h1]
    rw [scrollDownBranch_dir h1]
    norm_num

/-- With the scroll-up branch declined, no other branch can set the y
direction to -1. -/
theorem dir_y_ne_neg_one_of_up_none (a : AutoscrollConfig) (t : V2)
    (h : scrollUpBranch a t = none) : (autoscrollDirection a t).1.y ≠ -1 := by
  rcases h1 : scrollDownBranch a t with _ | r1
  · rcases h2 : scrollRightBranch a t with _ | r2
    · simp only [autoscrollDirection, h1, h2, h]
      rcases h4 : scrollLeftBranch a t with _ | r4
      · norm_num
      · rw [scrollLeftBranch_dir h4]
        norm_num
    · simp only [autoscrollDirection, h1, h2]
      rw [scrollRightBranch_dir h2]
      norm_num
  · simp only [autoscrollDirection, h1]
    rw [scrollDownBranch_dir h1]
    norm_num

/-- With the scroll-left branch declined, no other branch can set the x
direction to -1. -/
theorem dir_x_ne_neg_one_of_left_none (a : AutoscrollConfig) (t : V2)
    (h : scrollLeftBranch a t = none) : (autoscrollDirection a t).1.x ≠ -1 := by
  rcases h1 : scrollDownBranch a t with _ | r1
  · rcases h2 : scrollRightBranch a t with _ | r2
    · rcases h3 : scrollUpBranch a t with _ | r3
      · simp only [autoscrollDirection, h1, h2, h3, h]
        norm_num
      · simp only [autoscrollDirection, h1, h2, h3]
        rw [scrollUpBranch_dir h3]
        norm_num
    · simp only [autoscrollDirection, h1, h2]
      rw [scrollRightBranch_dir h2]
      norm_num
  · simp only [autoscrollDirection, h1]
    rw [scrollDownBranch_dir h1]
    norm_num

/-- C8 amended: the autoscroll directions come from a prioritized chain
(down, else right, else up, else left), so at most one axis is non-zero
per evaluation and a later branch stays zero while an earlier one fires.
On each of the four branches, once the earlier branches have declined,
the direction is non-zero exactly when the translate is within half an
element-extent of the corresponding bound (a `>=`/`<=` threshold), the
speed is 0 exactly at that threshold and grows linearly with the
distance the translate moves past it; and the repeating interval is
cleared exactly when no direction is active. -/
theorem autoscroll_chain_spec (a : AutoscrollConfig) (t : V2) (st : AutoState) :
    ((autoscrollDirection a t).1.x = 0 ∨ (autoscrollDirection a t).1.y = 0)
    ∧ (∀ m, a.bounds.maxY = some m →
        ((autoscrollDirection a t).1.y = 1 ↔ t.y ≥ m - a.height / 2))
    ∧ (∀ m, a.bounds.maxY = some m → t.y = m - a.height / 2 →
        autoscrollDirection a t = (⟨0, 1⟩, ⟨1, 0⟩))
    ∧ (∀ m d, a.bounds.maxY = some m → 0 < a.height → 0 ≤ d →
        t.y = m - a.height / 2 + d →
        autoscrollDirection a t = (⟨0, 1⟩, ⟨1, 10 * d / a.height⟩))
    ∧ (∀ m, a.bounds.maxX = some m → scrollDownBranch a t = none →
        ((autoscrollDirection a t).1.x = 1 ↔ t.x ≥ m - a.width / 2))
    ∧ (∀ m, a.bounds.maxX = some m → scrollDownBranch a t = none →
        t.x = m - a.width / 2 →
        autoscrollDirection a t = (⟨1, 0⟩, ⟨0, 1⟩))
    ∧ (∀ m d, a.bounds.maxX = some m → scrollDownBranch a t = none →
        0 < a.width → 0 ≤ d → t.x = m - a.width / 2 + d →
        autoscrollDirection a t = (⟨1, 0⟩, ⟨10 * d / a.width, 1⟩))
    ∧ (∀ m, a.bounds.minY = some m → scrollDownBranch a t = none →
        scrollRightBranch a t = none →
        ((autoscrollDirection a t).1.y = -1 ↔ t.y ≤ m + a.height / 2))
    ∧ (∀ m, a.bounds.minY = some m →
        scrollDownBranch a t = none → scrollRightBranch a t = none →
        t.y = m + a.height / 2 →
        autoscrollDirection a t = (⟨0, -1⟩, ⟨1, 0⟩))
    ∧ (∀ m d, a.bounds.minY = some m → scrollDownBranch a t = none →
        scrollRightBranch a t = none →
        0 < a.height → 0 ≤ d → t.y = m + a.height / 2 - d →
        autoscrollDirection a t = (⟨0, -1⟩, ⟨1, 10 * d / a.height⟩))
    ∧ (∀ m, a.bounds.minX = some m → scrollDownBranch a t = none →
        scrollRightBranch a t = none → scrollUpBranch a t = none →
        ((autoscrollDirection a t).1.x = -1 ↔ t.x ≤ m + a.width / 2))
    ∧ (∀ m, a.bounds.minX = some m → scrollDownBranch a t = none →
        scrollRightBranch a t = none → scrollUpBranch a t = none →
        t.x = m + a.width / 2 →
        autoscrollDirection a t = (⟨-1, 0⟩, ⟨0, 1⟩))
    ∧ (∀ m d, a.bounds.minX = some m → scrollDownBranch a t = none →
        scrollRightBranch a t = none → scrollUpBranch a t = none →
        0 < a.width → 0 ≤ d → t.x = m + a.width / 2 - d →
        autoscrollDirection a t = (⟨-1, 0⟩, ⟨10 * d / a.width, 1⟩))
    ∧ (st.translate = t →
        ((autoscrollRun a st).timer = none ↔ (autoscrollDirection a t).1 = ⟨0, 0⟩)) := by
  refine ⟨?_, ?_, ?_, ?_, ?_, ?_, ?_, ?_, ?_, ?_, ?_, ?_, ?_, ?_⟩
  · simp only [autoscrollDirection]
    rcases h1 : scrollDownBranch a t with _ | r1
    · rcases h2 : scrollRightBranch a t with _ | r2
      · rcases h3 : scrollUpBranch a t with _ | r3
        · rcases h4 : scrollLeftBranch a t with _ | r4
          · left
            rfl
          · right
            rw [scrollLeftBranch_dir h4]
        · left
          rw [scrollUpBranch_dir h3]
      · right
        rw [scrollRightBranch_dir h2]
    · left
      rw [scrollDownBranch_dir h1]
  · intro m hm
    constructor
    · intro h
      by_contra hc
      have hd : scrollDownBranch a t = none := by
        rw [scrollDownBranch_spec a t m hm, if_neg hc]
      exact dir_y_ne_one_of_down_none a t hd h
    · intro h
      have hd : scrollDownBranch a t
          = some (⟨0, 1⟩, ⟨1, 10 * |(m - a.height / 2 - t.y) / a.height|⟩) := by
        rw [scrollDownBranch_spec a t m hm, if_pos h]
      simp only [autoscrollDirection, hd]
  · intro m hm ht
    have hd : scrollDownBranch a t
        = some (⟨0, 1⟩, ⟨1, 10 * |(m - a.height / 2 - t.y) / a.height|⟩) := by
      rw [scrollDownBranch_spec a t m hm, if_pos (le_of_eq ht.symm)]
    simp only [autoscrollDirection, hd]
    rw [ht]
    norm_num
  · intro m d hm hh hd ht
    have hge : t.y ≥ m - a.height / 2 := by rw [ht]; linarith
    have hdb : scrollDownBranch a t
        = some (⟨0, 1⟩, ⟨1, 10 * |(m - a.height / 2 - t.y) / a.height|⟩) := by
      rw [scrollDownBranch_spec a t m hm, if_pos hge]
    simp only [autoscrollDirection, hdb]
    rw [ht]
    have h1 : m - a.height / 2 - (m - a.height / 2 + d) = -d := by ring
    rw [h1, neg_div, abs_neg, abs_div, abs_of_nonneg hd, abs_of_pos hh,
      mul_div_assoc]
  · intro m hm hdn
    constructor
    · intro h
      by_contra hc
      have hrn : scrollRightBranch a t = none := by
        rw [scrollRightBranch_spec a t m hm, if_neg hc]
      exact dir_x_ne_one_of_right_none a t hrn h
    · intro h
      have hrb : scrollRightBranch a t
          = some (⟨1, 0⟩, ⟨10 * |(m - a.width / 2 - t.x) / a.width|, 1⟩) := by
        rw [scrollRightBranch_spec a t m hm, if_pos h]
      simp only [autoscrollDirection, hdn, hrb]
  · intro m hm hdn ht
    have hrb : scrollRightBranch a t
        = some (⟨1, 0⟩, ⟨10 * |(m - a.width / 2 - t.x) / a.width|, 1⟩) := by
      rw [scrollRightBranch_spec a t m hm, if_pos (le_of_eq ht.symm)]
    simp only [autoscrollDirection, hdn, hrb]
    rw [ht]
    norm_num
  · intro m d hm hdn hw hd ht
    have hge : t.x ≥ m - a.width / 2 := by rw [ht]; linarith
    have hrb : scrollRightBranch a t
        = some (⟨1, 0⟩, ⟨10 * |(m - a.width / 2 - t.x) / a.width|, 1⟩) := by
      rw [scrollRightBranch_spec a t m hm, if_pos hge]
    simp only [autoscrollDirection, hdn, hrb]
    rw [ht]
    have h1 : m - a.width / 2 - (m - a.width / 2 + d) = -d := by ring
    rw [h1, neg_div, abs_neg, abs_div, abs_of_nonneg hd, abs_of_pos hw,
      mul_div_assoc]
  · intro m hm hdn hrn
    constructor
    · intro h
      by_contra hc
      have hun : scrollUpBranch a t = none := by
        rw [scrollUpBranch_spec a t m hm, if_neg hc]
      exact dir_y_ne_neg_one_of_up_none a t hun h
    · intro h
      have hub : scrollUpBranch a t
          = some (⟨0, -1⟩, ⟨1, 10 * |(t.y - a.height / 2 - m) / a.height|⟩) := by
        rw [scrollUpBranch_spec a t m hm, if_pos h]
      simp only [autoscrollDirection, hdn, hrn, hub]
  · intro m hm h1 h2 ht
    have hu : scrollUpBranch a t
        = some (⟨0, -1⟩, ⟨1, 10 * |(t.y - a.height / 2 - m) / a.height|⟩) := by
      rw [scrollUpBranch_spec a t m hm, if_pos (le_of_eq ht)]
    simp only [autoscrollDirection, h1, h2, hu]
    rw [ht]
    norm_num
  · intro m d hm hdn hrn hh hd ht
    have hle : t.y ≤ m + a.height / 2 := by rw [ht]; linarith
    have hub : scrollUpBranch a t
        = some (⟨0, -1⟩, ⟨1, 10 * |(t.y - a.height / 2 - m) / a.height|⟩) := by
      rw [scrollUpBranch_spec a t m hm, if_pos hle]
    simp only [autoscrollDirection, hdn, hrn, hub]
    rw [ht]
    have h1 : m + a.height / 2 - d - a.height / 2 - m = -d := by ring
    rw [h1, neg_div, abs_neg, abs_div, abs_of_nonneg hd, abs_of_pos hh,
      mul_div_assoc]
  · intro m hm hdn hrn hun
    constructor
    · intro h
      by_contra hc
      have hln : scrollLeftBranch a t = none := by
        rw [scrollLeftBranch_spec a t m hm, if_neg hc]
      exact dir_x_ne_neg_one_of_left_none a t hln h
    · intro h
      have hlb : scrollLeftBranch a t
          = some (⟨-1, 0⟩, ⟨10 * |(t.x - a.width / 2 - m) / a.width|, 1⟩) := by
        rw [scrollLeftBranch_spec a t m hm, if_pos h]
      simp only [autoscrollDirection, hdn, hrn, hun, hlb]
  · intro m hm hdn hrn hun ht
    have hlb : scrollLeftBranch a t
        = some (⟨-1, 0⟩, ⟨10 * |(t.x - a.width / 2 - m) / a.width|, 1⟩) := by
      rw [scrollLeftBranch_spec a t m hm, if_pos (le_of_eq ht)]
    simp only [autoscrollDirection, hdn, hrn, hun, hlb]
    rw [ht]
    norm_num
  · intro m d hm hdn hrn hun hw hd ht
    have hle : t.x ≤ m + a.width / 2 := by rw [ht]; linarith
    have hlb : scrollLeftBranch a t
        = some (⟨-1, 0⟩, ⟨10 * |(t.x - a.width / 2 - m) / a.width|, 1⟩) := by
      rw [scrollLeftBranch_spec a t m hm, if_pos hle]
    simp only [autoscrollDirection, hdn, hrn, hun, hlb]
    rw [ht]
    have h1 : m + a.width / 2 - d - a.width / 2 - m = -d := by ring
    rw [h1, neg_div, abs_neg, abs_div, abs_of_nonneg hd, abs_of_pos hw,
      mul_div_assoc]
  · intro h
    simp only [autoscrollRun, h]
    split_ifs with hc
    · constructor
      · intro hfalse
        simp at hfalse
      · intro heq
        rcases hc with hc | hc <;> rw [heq] at hc <;> simp at hc
    · push_neg at hc
      simp only [true_iff]
      rcases hdir : (autoscrollDirection a t).1 with ⟨dx, dy⟩
      rw [hdir] at hc
      simp only [V2.mk.injEq]
      exact ⟨hc.1, hc.2⟩

/-- When the lock-offset configuration cannot throw, `updatePosition`
completes. -/
theorem updatePositionResult_ok (c : UpdateConfig) (e : PointerEventIn)
    (hlk : c.lockToContainerEdges = false
      ∨ ∃ v, getLockPixelOffsets c.width c.height c.lockOffset = Except.ok v) :
    (updatePositionResult c e).2 = true := by
  unfold updatePositionResult
  rcases hlk with hlk | ⟨v, hv⟩
  · rw [hlk]
    simp
  · by_cases hedge : c.lockToContainerEdges
    · rw [if_pos hedge, hv]
    · rw [if_neg hedge]

/-- With `lockAxis = "x"`, every completed `updatePosition` yields
`translate.y = 0`. -/
theorem updatePositionResult_lockAxis_x (c : UpdateConfig) (e : PointerEventIn)
    (hx : c.lockAxis = some "x")
    (h : (updatePositionResult c e).2 = true) :
    (updatePositionResult c e).1.y = 0 := by
  unfold updatePositionResult at h ⊢
  by_cases hedge : c.lockToContainerEdges
  · rw [if_pos hedge] at h ⊢
    rcases hres : getLockPixelOffsets c.width c.height c.lockOffset with err | v
    · rw [hres] at h
      simp at h
    · rcases v with ⟨mn, mx⟩
      dsimp only
      simp [lockAxisAdjust, hx]
  · rw [if_neg hedge]
    simp only [lockAxisAdjust, hx]
    simp

/-- With no y-axis translate bounds assigned, the chain never produces a
vertical direction. -/
theorem autoscrollDirection_y_zero (a : AutoscrollConfig) (t : V2)
    (h1 : a.bounds.maxY = none) (h2 : a.bounds.minY = none) :
    (autoscrollDirection a t).1.y = 0 := by
  have hd : scrollDownBranch a t = none := by
    unfold scrollDownBranch
    rw [h1]
  have hu : scrollUpBranch a t = none := by
    unfold scrollUpBranch
    rw [h2]
  rcases hr : scrollRightBranch a t with _ | r
  · rcases hl : scrollLeftBranch a t with _ | l
    · simp only [autoscrollDirection, hd, hr, hu, hl]
    · simp only [autoscrollDirection, hd, hr, hu, hl]
      rw [scrollLeftBranch_dir hl]
  · simp only [autoscrollDirection, hd, hr]
    rw [scrollRightBranch_dir hr]

/-- One Active-session event preserves "the helper translate and any
captured tick offset are vertically zero". -/
theorem stepSession_preserves_y_zero (c : UpdateConfig) (a : AutoscrollConfig)
    (hx : c.lockAxis = some "x")
    (hlk : c.lockToContainerEdges = false
      ∨ ∃ v, getLockPixelOffsets c.width c.height c.lockOffset = Except.ok v)
    (h1 : a.bounds.maxY = none) (h2 : a.bounds.minY = none)
    (st : AutoState) (hst : st.translate.y = 0)
    (htm : ∀ off, st.timer = some off → off.y = 0) (ev : SessionEvent) :
    (stepSession c a st ev).translate.y = 0
    ∧ ∀ off, (stepSession c a st ev).timer = some off → off.y = 0 := by
  cases ev with
  | move e =>
    have hok := updatePositionResult_ok c e hlk
    have hy := updatePositionResult_lockAxis_x c e hx hok
    simp only [stepSession, hok, if_pos]
    unfold autoscrollRun
    dsimp only
    split_ifs with hc
    · refine ⟨hy, ?_⟩
      intro off hoff
      simp only at hoff
      cases hoff.symm
      have hdy : (autoscrollDirection a
          { st with translate := (updatePositionResult c e).1 }.translate).1.y = 0 :=
        autoscrollDirection_y_zero a _ h1 h2
      simp only [hdy]
      ring
    · exact ⟨hy, by intro off hoff; simp at hoff⟩
  | tick =>
    simp only [stepSession]
    unfold autoscrollTick
    rcases hti : st.timer with _ | off
    · exact ⟨hst, htm⟩
    · have hoy := htm off hti
      refine ⟨?_, ?_⟩
      · simp [hst, hoy]
      · intro off2 hoff2
        dsimp only at hoff2
        injection hoff2 with h3
        exact h3 ▸ hoy

/-- C5 amended: with `lockAxis = "x"`, every translate `updatePosition`
computes has `y = 0`, and — provided the y axis is disabled (no y
translate bounds) and the lock-offset configuration cannot throw — the
helper translate stays vertically zero across every interleaving of
pointer moves and autoscroll ticks of the Active session.  (With the y
axis enabled, an autoscroll tick can move `translate.y` off zero; see
the counterexample.) -/
theorem lockAxis_x_translate_y_zero (c : UpdateConfig) (a : AutoscrollConfig)
    (hx : c.lockAxis = some "x")
    (hlk : c.lockToContainerEdges = false
      ∨ ∃ v, getLockPixelOffsets c.width c.height c.lockOffset = Except.ok v)
    (h1 : a.bounds.maxY = none) (h2 : a.bounds.minY = none)
    (st : AutoState) (hst : st.translate.y = 0)
    (htm : ∀ off, st.timer = some off → off.y = 0)
    (evs : List SessionEvent) :
    (∀ e, (updatePosition c e).y = 0)
    ∧ (evs.foldl (stepSession c a) st).translate.y = 0 := by
  constructor
  · intro e
    exact updatePositionResult_lockAxis_x c e hx (updatePositionResult_ok c e hlk)
  · induction evs generalizing st with
    | nil => exact hst
    | cons ev rest ih =>
      have hstep := stepSession_preserves_y_zero c a hx hlk h1 h2 st hst htm ev
      exact ih _ hstep.1 hstep.2

theorem lockAxis_x_translate_y_zero_witness :
    (([SessionEvent.move ⟨0, 37, 0, 0⟩, SessionEvent.tick]).foldl
        (stepSession
          ⟨some "x", false, LockOffsetProp.single (LockOffsetValue.num 0), 100, 100,
            ⟨some (-1000), none, some 1000, none⟩, 0, 0, 0, 0⟩
          ⟨100, 100, ⟨some (-1000), none, some 1000, none⟩⟩)
        ⟨⟨0, 0⟩, 0, 0, none⟩).translate.y = 0 :=
  (lockAxis_x_translate_y_zero
    ⟨some "x", false, LockOffsetProp.single (LockOffsetValue.num 0), 100, 100,
      ⟨some (-1000), none, some 1000, none⟩, 0, 0, 0, 0⟩
    ⟨100, 100, ⟨some (-1000), none, some 1000, none⟩⟩
    rfl (Or.inl rfl) rfl rfl ⟨⟨0, 0⟩, 0, 0, none⟩ rfl
    (by intro off h; exact Option.noConfusion h)
    [SessionEvent.move ⟨0, 37, 0, 0⟩, SessionEvent.tick]).2

/-- C5 as stated is false: with the y axis enabled (`axis="xy"`) and the
dragged element near the bottom bound, one autoscroll tick after a move
leaves `translate.y = 5` even though `lockAxis = "x"` zeroed it on the
move itself. -/
theorem lockAxis_x_autoscroll_tick_cex :
    (([SessionEvent.move ⟨0, 37, 0, 0⟩, SessionEvent.tick]).foldl
        (stepSession
          ⟨some "x", false, LockOffsetProp.single (LockOffsetValue.num 0), 100, 100,
            ⟨some (-1000), some (-1000), some 1000, some 0⟩, 0, 0, 0, 0⟩
          ⟨100, 100, ⟨some (-1000), some (-1000), some 1000, some 0⟩⟩)
        ⟨⟨0, 0⟩, 0, 0, none⟩).translate.y = 5 := by
  norm_num [List.foldl, stepSession, updatePositionResult, lockAxisAdjust,
    autoscrollRun, autoscrollDirection, scrollDownBranch, scrollRightBranch,
    scrollUpBranch, scrollLeftBranch, autoscrollTick, limit, abs_of_nonneg,
    abs_of_nonpos]

/-- C1 amended: for an origin drag, the x-only axis translates a
neighbor exactly when the dragged box's edge crosses the midpoint
threshold (half of the smaller of the dragged/item widths) with
`>=` / `<=` comparisons; the y-only axis (no hover callback) instead
translates a neighbor as soon as the boxes strictly overlap at all —
`draggedTop < item bottom edge` for before-items and
`draggedBottom > item top edge` for after-items — not at 50% overlap. -/
theorem single_axis_swap_conditions (s : Sorting) (n : NodeItem)
    (so sd : Edge) (next prev : Option Edge) (ho : s.isOrigin = true) :
    (s.axisX = true → s.axisY = false → 0 < s.width + s.marginOffsetX →
      ∃ t u, animateNode s so sd n next prev = some (t, u)
        ∧ (t.x ≠ 0 ↔
            (n.index > s.index ∧
              so.left + sd.left
                + (if s.width > n.width then n.width / 2 else s.width / 2)
                ≥ n.edgeOffset.left)
            ∨ (n.index < s.index ∧
              so.left + sd.left
                ≤ n.edgeOffset.left
                  + (if s.width > n.width then n.width / 2 else s.width / 2))))
    ∧ (s.axisX = false → s.axisY = true → s.onSortHover = none →
        0 < s.height + s.marginOffsetY →
      ∃ t u, animateNode s so sd n next prev = some (t, u)
        ∧ (t.y ≠ 0 ↔
            (n.index < s.index ∧
              so.top + sd.top < n.edgeOffset.top + n.height)
            ∨ (n.index > s.index ∧
              so.top + sd.top + s.height > n.edgeOffset.top))) := by
  constructor
  · intro hx hy hw
    simp only [animateNode, hx, hy, ho, if_true, if_false, Bool.false_eq_true,
      Bool.true_eq_false, false_or]
    set halfW := (if s.width > n.width then n.width / 2 else s.width / 2) with hhw
    split_ifs with h1 h2
    · refine ⟨⟨-(s.width + s.marginOffsetX), 0⟩, .set n.index, rfl, ?_⟩
      constructor
      · intro _
        exact Or.inl h1
      · intro _
        simp only [neg_ne_zero]
        exact ne_of_gt hw
    · refine ⟨⟨s.width + s.marginOffsetX, 0⟩, .setIfNull n.index, rfl, ?_⟩
      constructor
      · intro _
        exact Or.inr h2
      · intro _
        exact ne_of_gt hw
    · refine ⟨⟨0, 0⟩, .keep, rfl, ?_⟩
      constructor
      · intro hfalse
        exact absurd rfl hfalse
      · intro hcases
        rcases hcases with hc | hc
        · exact absurd hc h1
        · exact absurd hc h2
  · intro hx hy hh hw
    simp only [animateNode, hx, hy, hh, ho, if_true, if_false, Bool.false_eq_true,
      Bool.true_eq_false, false_or]
    split_ifs with h1 h2 h3 h4
    · refine ⟨⟨0, s.height + s.marginOffsetY⟩, .setIfNull n.index, rfl, ?_⟩
      constructor
      · intro _
        exact Or.inl ⟨h1, of_decide_eq_true h2⟩
      · intro _
        exact ne_of_gt hw
    · refine ⟨⟨0, 0⟩, .keep, rfl, ?_⟩
      constructor
      · intro hfalse
        exact absurd rfl hfalse
      · intro hcases
        rcases hcases with hc | hc
        · exact absurd (decide_eq_true hc.2) h2
        · exact absurd hc.1 (by omega)
    · refine ⟨⟨0, -(s.height + s.marginOffsetY)⟩, .set n.index, rfl, ?_⟩
      constructor
      · intro _
        exact Or.inr ⟨h3, of_decide_eq_true h4⟩
      · intro _
        simp only [neg_ne_zero]
        exact ne_of_gt hw
    · refine ⟨⟨0, 0⟩, .keep, rfl, ?_⟩
      constructor
      · intro hfalse
        exact absurd rfl hfalse
      · intro hcases
        rcases hcases with hc | hc
        · exact absurd hc.1 h1
        · exact absurd (decide_eq_true hc.2) h4
    · refine ⟨⟨0, 0⟩, .keep, rfl, ?_⟩
      constructor
      · intro hfalse
        exact absurd rfl hfalse
      · intro hcases
        rcases hcases with hc | hc
        · exact absurd hc.1 h1
        · exact absurd hc.1 h3

/-- C1 as stated is false on the y-only axis: the dragged box's bottom
edge (20 + 100 = 120) has crossed only 20 of item 1's 100-px extent —
20% overlap, short of the claimed 50% midpoint threshold at 150 — yet
the item is already translated by a full slot (−110). -/
theorem y_axis_swaps_below_midpoint :
    animateNode ySample (sortingOffsetOf ySample) (scrollDifferenceOf ySample)
        nodeSample none none
      = some (⟨0, -110⟩, IndexUpdate.set 1)
    ∧ (sortingOffsetOf ySample).top + (scrollDifferenceOf ySample).top + ySample.height
        < nodeSample.edgeOffset.top
          + (if ySample.height > nodeSample.height
             then nodeSample.height / 2 else ySample.height / 2) := by
  constructor
  · norm_num [animateNode, ySample, nodeSample, sortingOffsetOf, scrollDifferenceOf]
  · norm_num [ySample, nodeSample, sortingOffsetOf, scrollDifferenceOf]

theorem single_axis_swap_conditions_witness :
    ∃ t u, animateNode xSample (sortingOffsetOf xSample) (scrollDifferenceOf xSample)
        nodeSample none none = some (t, u)
      ∧ (t.x ≠ 0 ↔
          (nodeSample.index > xSample.index ∧
            (sortingOffsetOf xSample).left + (scrollDifferenceOf xSample).left
              + (if xSample.width > nodeSample.width
                 then nodeSample.width / 2 else xSample.width / 2)
              ≥ nodeSample.edgeOffset.left)
          ∨ (nodeSample.index < xSample.index ∧
            (sortingOffsetOf xSample).left + (scrollDifferenceOf xSample).left
              ≤ nodeSample.edgeOffset.left
                + (if xSample.width > nodeSample.width
                   then nodeSample.width / 2 else xSample.width / 2))) :=
  (single_axis_swap_conditions xSample nodeSample
    (sortingOffsetOf xSample) (scrollDifferenceOf xSample) none none rfl).1
    rfl rfl (by norm_num [xSample, ySample])

/-- C6: in a grid, a before-item pushed right past the row width lands
exactly on the next item's cached offset (translate = next's offset minus
its own), and an after-item pushed left past the left bound lands
exactly on the previous item's cached offset. -/
theorem grid_wrap_lands_on_neighbor_offset (s : Sorting) (n : NodeItem)
    (so sd : Edge) (nx pv : Edge) (prev next : Option Edge)
    (hx : s.axisX = true) (hy : s.axisY = true) :
    (n.index < s.index →
      (((so.left + sd.left) - (if s.width > n.width then n.width / 2 else s.width / 2)
          ≤ n.edgeOffset.left
        ∧ (so.top + sd.top)
          ≤ n.edgeOffset.top + (if s.height > n.height then n.height / 2 else s.height / 2))
       ∨ (so.top + sd.top) + (if s.height > n.height then n.height / 2 else s.height / 2)
          ≤ n.edgeOffset.top) →
      n.edgeOffset.left + (s.width + s.marginOffsetX)
        > s.containerWidth - (if s.width > n.width then n.width / 2 else s.width / 2) →
      animateNode s so sd n (some nx) prev
        = some (⟨nx.left - n.edgeOffset.left, nx.top - n.edgeOffset.top⟩,
                .setIfNull n.index))
    ∧ (n.index > s.index →
      (((so.left + sd.left) + (if s.width > n.width then n.width / 2 else s.width / 2)
          ≥ n.edgeOffset.left
        ∧ (so.top + sd.top) + (if s.height > n.height then n.height / 2 else s.height / 2)
          ≥ n.edgeOffset.top)
       ∨ (so.top + sd.top) + (if s.height > n.height then n.height / 2 else s.height / 2)
          ≥ n.edgeOffset.top + n.height) →
      n.edgeOffset.left + -(s.width + s.marginOffsetX)
        < s.containerLeft + (if s.width > n.width then n.width / 2 else s.width / 2) →
      animateNode s so sd n next (some pv)
        = some (⟨pv.left - n.edgeOffset.left, pv.top - n.edgeOffset.top⟩,
                .set n.index)) := by
  constructor
  · intro hlt hcond hwrap
    simp only [animateNode, hx, hy, if_true]
    rw [if_pos ⟨hlt, hcond⟩, if_pos hwrap]
  · intro hgt hcond hwrap
    simp only [animateNode, hx, hy, if_true]
    rw [if_neg (fun hc => absurd hc.1 (by omega)), if_pos ⟨hgt, hcond⟩,
      if_pos hwrap]

/-- The first reflow loop yields one translate per ordered ref. -/
theorem runNodes_length (s : Sorting) (so sd : Edge) :
    ∀ (nodes : List NodeItem) (prev : Option NodeItem) (acc : Option ℤ)
      (ts : List V2) (a : Option ℤ),
      runNodes s so sd prev acc nodes = some (ts, a) → ts.length = nodes.length := by
  intro nodes
  induction nodes with
  | nil =>
    intro prev acc ts a h
    simp only [runNodes] at h
    cases h
    rfl
  | cons n rest ih =>
    intro prev acc ts a h
    simp only [runNodes] at h
    split_ifs at h with hskip
    · rcases hrec : runNodes s so sd (some n) acc rest with _ | ⟨ts2, a2⟩
      · rw [hrec] at h
        simp at h
      · rw [hrec] at h
        cases h
        simp only [List.length_cons]
        rw [ih _ _ _ _ hrec]
    · rcases han : animateNode s so sd n ((rest.head?).map NodeItem.edgeOffset)
          (prev.map NodeItem.edgeOffset) with _ | ⟨t, u⟩
      · rw [han] at h
        simp at h
      · rw [han] at h
        dsimp only at h
        rcases hrec : runNodes s so sd (some n) (applyUpdate acc u) rest with _ | ⟨ts2, a2⟩
        · rw [hrec] at h
          simp at h
        · rw [hrec] at h
          cases h
          simp only [List.length_cons]
          rw [ih _ _ _ _ hrec]

/-- With an always-false `canSortDrop`, one reflow resets `newIndex` to
the original index. -/
theorem animateNodes_newIndex_veto (s : Sorting) (nodes : List NodeItem)
    (r : AnimateResult) (p : DropArgs → Bool)
    (hp : s.canSortDrop = some p) (hfalse : ∀ a, p a = false)
    (hr : animateNodes s nodes = some r) : r.newIndex = s.index := by
  unfold animateNodes at hr
  rcases hrun : runNodes s (sortingOffsetOf s) (scrollDifferenceOf s) none none nodes
      with _ | ⟨ts, acc⟩
  · rw [hrun] at hr
    simp at hr
  · rw [hrun] at hr
    rw [hp] at hr
    dsimp only at hr
    rw [hfalse] at hr
    cases hr
    rfl

/-- C3: whenever `canSortDrop` vetoes a reflow, every item's stored
translate is reset to zero, every applied transform is the identity
`translate3d(0px,0px,0)`, and `newIndex` reverts to the original index;
consequently a session whose moves are all vetoed ends with `newIndex`
equal to `oldIndex`, and the commit `handleSortEnd` emits carries
`newIndex = oldIndex`. -/
theorem canSortDrop_veto_spec :
    (∀ (s : Sorting) (nodes : List NodeItem) (p : DropArgs → Bool) (r : AnimateResult),
      s.canSortDrop = some p →
      animateNodes s nodes = some r →
      p ⟨s.isOrigin, s.index, r.tentativeNewIndex, s.collection⟩ = false →
      r.translates = List.replicate nodes.length ⟨0, 0⟩
      ∧ r.transforms = List.replicate nodes.length "translate3d(0px,0px,0)"
      ∧ r.newIndex = s.index)
    ∧ (∀ (d : ℤ) (p : DropArgs → Bool), (∀ a, p a = false) →
      ∀ (moves : List Sorting), (∀ s ∈ moves, s.canSortDrop = some p) →
      (∀ s ∈ moves, s.index = d) →
      ∀ (nodes : List NodeItem) (res : List NodeItem × ℤ),
      runMoves nodes d moves = some res →
      res.2 = d
      ∧ ∀ (st : ContainerState) (idx : Option ℤ) (col : ℤ),
          st.index = d → st.newIndex = res.2 → st.active = some (idx, col) →
          ∃ st2, handleSortEnd st = Except.ok (st2, ⟨d, d, col⟩)) := by
  constructor
  · intro s nodes p r hp hr hv
    unfold animateNodes at hr
    rcases hrun : runNodes s (sortingOffsetOf s) (scrollDifferenceOf s) none none nodes
        with _ | ⟨ts, acc⟩
    · rw [hrun] at hr
      simp at hr
    · rw [hrun] at hr
      rw [hp] at hr
      dsimp only at hr
      have htlen := runNodes_length s (sortingOffsetOf s) (scrollDifferenceOf s)
        nodes none none ts acc hrun
      have hv2 : p ⟨s.isOrigin, s.index, acc.getD s.index, s.collection⟩ = false := by
        have : r.tentativeNewIndex = acc.getD s.index := by
          cases hr
          rfl
        rw [this] at hv
        exact hv
      rw [hv2] at hr
      cases hr
      refine ⟨?_, ?_, rfl⟩
      · simp only [Bool.false_eq_true, if_false]
        rw [← htlen, List.map_const']
      · simp only [Bool.false_eq_true, if_false]
        rw [List.map_map, ← htlen]
        have hcomp : transformString ∘ (fun _ : V2 => (⟨0, 0⟩ : V2))
            = fun _ : V2 => "translate3d(0px,0px,0)" := rfl
        rw [hcomp, List.map_const']
  · intro d p hfalse moves
    induction moves with
    | nil =>
      intro hmv hmd nodes res hr
      simp only [runMoves] at hr
      cases hr
      refine ⟨rfl, ?_⟩
      intro st idx col hsti hstn hsta
      dsimp only at hstn
      refine ⟨{ st with listeners := false, helper := false, autoscrollTimer := false, active := none, sorting := false }, ?_⟩
      simp only [handleSortEnd, hsta]
      rw [hsti, hstn]
    | cons s rest ih =>
      intro hmv hmd nodes res hr
      simp only [runMoves] at hr
      rcases han : animateNodes s nodes with _ | r
      · rw [han] at hr
        simp at hr
      · rw [han] at hr
        dsimp only at hr
        have hnew : r.newIndex = s.index :=
          animateNodes_newIndex_veto s nodes r p (hmv s (by simp)) hfalse han
        have hsd : s.index = d := hmd s (by simp)
        rw [hnew, hsd] at hr
        exact ih (fun s2 hs2 => hmv s2 (by simp [hs2]))
          (fun s2 hs2 => hmd s2 (by simp [hs2])) _ res hr

theorem canSortDrop_veto_spec_witness :
    vetoResult.translates = List.replicate vetoNodes.length ⟨0, 0⟩
    ∧ vetoResult.transforms = List.replicate vetoNodes.length "translate3d(0px,0px,0)"
    ∧ vetoResult.newIndex = vetoSample.index :=
  canSortDrop_veto_spec.1 vetoSample vetoNodes (fun _ => false) vetoResult rfl
    (by
      norm_num [animateNodes, runNodes, animateNode, vetoSample, vetoNodes,
        vetoResult, ySample, dragNode, nodeSample, sortingOffsetOf,
        scrollDifferenceOf, applyUpdate, transformString]
      exact ⟨rfl, rfl⟩)
    rfl

/-- The translate stored for any ref whose index equals the dragged
index is untouched by the first reflow loop. -/
theorem runNodes_get_dragged (s : Sorting) (so sd : Edge) :
    ∀ (nodes : List NodeItem) (prev : Option NodeItem) (acc : Option ℤ)
      (ts : List V2) (a : Option ℤ),
      runNodes s so sd prev acc nodes = some (ts, a) →
      ∀ (i : ℕ) (hi : i < nodes.length) (hit : i < ts.length),
        (nodes.get ⟨i, hi⟩).index = s.index →
        ts.get ⟨i, hit⟩ = (nodes.get ⟨i, hi⟩).translate := by
  intro nodes
  induction nodes with
  | nil =>
    intro prev acc ts a h i hi
    simp at hi
  | cons n rest ih =>
    intro prev acc ts a h i hi hit hidx
    simp only [runNodes] at h
    split_ifs at h with hskip
    · rcases hrec : runNodes s so sd (some n) acc rest with _ | ⟨ts2, a2⟩
      · rw [hrec] at h
        simp at h
      · rw [hrec] at h
        cases h
        cases i with
        | zero => rfl
        | succ j =>
          exact ih _ _ _ _ hrec j (by simpa using hi) (by simpa using hit)
            (by simpa using hidx)
    · rcases han : animateNode s so sd n ((rest.head?).map NodeItem.edgeOffset)
          (prev.map NodeItem.edgeOffset) with _ | ⟨t, u⟩
      · rw [han] at h
        simp at h
      · rw [han] at h
        dsimp only at h
        rcases hrec : runNodes s so sd (some n) (applyUpdate acc u) rest
            with _ | ⟨ts2, a2⟩
        · rw [hrec] at h
          simp at h
        · rw [hrec] at h
          cases h
          cases i with
          | zero => exact absurd (by simpa using hidx) hskip
          | succ j =>
            exact ih _ _ _ _ hrec j (by simpa using hi) (by simpa using hit)
              (by simpa using hidx)

/-- C9 amended: every reflow writes a `Transform` style for every
ordered ref — the dragged one included.  The first loop never modifies
the dragged element's stored translate (the veto path can only rewrite
it to the zero it already holds), so whenever its stored translate is
zero the style written to it is exactly the identity
`translate3d(0px,0px,0)`; the helper overlay is positioned separately
by `updatePosition` via its own translate. -/
theorem transforms_applied_spec :
    (∀ (s : Sorting) (nodes : List NodeItem) (r : AnimateResult),
      animateNodes s nodes = some r →
      r.transforms = r.translates.map transformString
      ∧ r.transforms.length = nodes.length
      ∧ (s.canSortDrop = none →
        ∀ (i : ℕ) (hi : i < nodes.length) (hit : i < r.translates.length),
          (nodes.get ⟨i, hi⟩).index = s.index →
          r.translates.get ⟨i, hit⟩ = (nodes.get ⟨i, hi⟩).translate)
      ∧ (∀ (i : ℕ) (hi : i < nodes.length),
          (nodes.get ⟨i, hi⟩).index = s.index →
          (nodes.get ⟨i, hi⟩).translate = ⟨0, 0⟩ →
          r.translates[i]? = some ⟨0, 0⟩
          ∧ r.transforms[i]? = some "translate3d(0px,0px,0)"))
    ∧ (∀ (c : UpdateConfig) (e : PointerEventIn),
        (updatePositionResult c e).2 = true →
        helperTransform c e = some (helperTransformString (updatePosition c e))) := by
  constructor
  · intro s nodes r hr
    unfold animateNodes at hr
    rcases hrun : runNodes s (sortingOffsetOf s) (scrollDifferenceOf s) none none nodes
        with _ | ⟨ts, acc⟩
    · rw [hrun] at hr
      simp at hr
    · rw [hrun] at hr
      dsimp only at hr
      have htlen := runNodes_length s (sortingOffsetOf s) (scrollDifferenceOf s)
        nodes none none ts acc hrun
      refine ⟨?_, ?_, ?_, ?_⟩
      · cases hr
        rfl
      · cases hr
        rw [List.length_map]
        split_ifs
        · exact htlen
        · rw [List.length_map]
          exact htlen
      · intro hnone i hi hit hidx
        rw [hnone] at hr
        simp only [reduceIte] at hr
        cases hr
        exact runNodes_get_dragged s (sortingOffsetOf s) (scrollDifferenceOf s)
          nodes none none ts acc hrun i hi (by simpa using hit) hidx
      · cases hr
        intro i hi
        dsimp only
        by_cases hb : (match s.canSortDrop with
            | none => true
            | some p =>
              p ⟨s.isOrigin, s.index, acc.getD s.index, s.collection⟩) = true
        · simp only [if_pos hb]
          intro hidx hzero
          have hit : i < ts.length := by rw [htlen]; exact hi
          have hts := runNodes_get_dragged s (sortingOffsetOf s) (scrollDifferenceOf s)
            nodes none none ts acc hrun i hi hit hidx
          have hzt : ts.get ⟨i, hit⟩ = ⟨0, 0⟩ := by rw [hts, hzero]
          refine ⟨?_, ?_⟩
          · rw [List.getElem?_eq_getElem hit]
            exact congrArg some hzt
          · rw [List.getElem?_eq_getElem
              (show i < (ts.map transformString).length by
                rw [List.length_map]; exact hit)]
            simp only [List.getElem_map]
            exact congrArg some ((congrArg transformString hzt).trans rfl)
        · simp only [if_neg hb]
          intro hidx hzero
          have hit : i < ts.length := by rw [htlen]; exact hi
          refine ⟨?_, ?_⟩
          · rw [List.getElem?_eq_getElem
              (show i < (ts.map fun _ => (⟨0, 0⟩ : V2)).length by
                rw [List.length_map]; exact hit)]
            simp only [List.getElem_map]
          · rw [List.getElem?_eq_getElem
              (show i < ((ts.map fun _ => (⟨0, 0⟩ : V2)).map transformString).length by
                simp only [List.length_map]; exact hit)]
            simp only [List.getElem_map]
            rfl
  · intro c e h
    unfold helperTransform updatePosition
    rcases hres : updatePositionResult c e with ⟨t, ok⟩
    rw [hres] at h
    dsimp only at h
    rw [h]

/-- C9 as stated is false: the second reflow loop writes a `Transform`
style to the dragged element as well — the write it receives is the
identity `translate3d(0px,0px,0)`. -/
theorem dragged_node_receives_transform_cex :
    (animateNodes ySample [dragNode, nodeSample]).map
        (fun r => r.transforms.getD 0 "")
      = some "translate3d(0px,0px,0)" := by
  norm_num [animateNodes, runNodes, animateNode, ySample, dragNode, nodeSample,
    sortingOffsetOf, scrollDifferenceOf, applyUpdate, transformString]
  rfl

theorem grid_wrap_lands_on_neighbor_offset_witness :
    animateNode gridSample ⟨-60, 0⟩ ⟨0, 0⟩ gridNode (some ⟨110, 0⟩) none
      = some (⟨(⟨110, 0⟩ : Edge).left - gridNode.edgeOffset.left,
               (⟨110, 0⟩ : Edge).top - gridNode.edgeOffset.top⟩,
              .setIfNull gridNode.index) :=
  (grid_wrap_lands_on_neighbor_offset gridSample gridNode ⟨-60, 0⟩ ⟨0, 0⟩
      ⟨110, 0⟩ ⟨0, 0⟩ none none rfl rfl).1
    (by norm_num [gridSample, ySample, gridNode])
    (Or.inr (by norm_num [gridSample, ySample, gridNode]))
    (by norm_num [gridSample, ySample, gridNode])

theorem transforms_applied_spec_witness :
    ySampleResult.transforms = ySampleResult.translates.map transformString
    ∧ ySampleResult.transforms.length = 2
    ∧ ySampleResult.transforms[0]? = some "translate3d(0px,0px,0)" := by
  have hr : animateNodes ySample [dragNode, nodeSample] = some ySampleResult := by
    norm_num [animateNodes, runNodes, animateNode, ySample, dragNode, nodeSample,
      ySampleResult, sortingOffsetOf, scrollDifferenceOf, applyUpdate,
      transformString]
    exact ⟨⟨rfl, rfl⟩, rfl⟩
  have h := transforms_applied_spec.1 ySample [dragNode, nodeSample] ySampleResult hr
  refine ⟨h.1, h.2.1, ?_⟩
  exact (h.2.2.2 0 (by norm_num) rfl rfl).2

set_option maxHeartbeats 1000000 in
theorem animateNode_update (s : Sorting) (so sd : Edge) (n : NodeItem)
    (next prev : Option Edge) (t : V2) (u : IndexUpdate)
    (h : animateNode s so sd n next prev = some (t, u)) :
    nodeUpdate s so sd n = u := by
  by_cases hax : s.axisX <;> by_cases hay : s.axisY <;>
    simp only [animateNode, nodeUpdate, hax, hay, if_true, if_false,
      Bool.false_eq_true, Bool.true_eq_false] at h ⊢ <;>
    (try split_ifs at h ⊢) <;>
    first
      | (cases h; rfl)
      | (rcases next with _ | nx
         · exact absurd h (by simp)
         · dsimp only at h ⊢
           cases h
           rfl)
      | (rcases prev with _ | pv
         · exact absurd h (by simp)
         · dsimp only at h ⊢
           cases h
           rfl)

set_option maxHeartbeats 1000000 in
theorem nodeUpdate_cases (s : Sorting) (so sd : Edge) (n : NodeItem)
    (ho : s.isOrigin = true) :
    (∀ i, nodeUpdate s so sd n = .set i → i = n.index ∧ s.index < n.index)
    ∧ (∀ i, nodeUpdate s so sd n = .setIfNull i → i = n.index ∧ n.index < s.index) := by
  have horig : ∀ (P : Prop), (s.isOrigin = false ∨ P) → P := by
    intro P hp
    rcases hp with hiso | hp
    · rw [ho] at hiso
      exact absurd hiso (by simp)
    · exact hp
  by_cases hax : s.axisX <;> by_cases hay : s.axisY
  · -- grid
    simp only [nodeUpdate, animateNode, hax, hay, if_true] at *
    set halfW := (if s.width > n.width then n.width / 2 else s.width / 2) with hhw
    set halfH := (if s.height > n.height then n.height / 2 else s.height / 2) with hhh
    split_ifs with h1 h2 h3 h4 <;>
      constructor <;> intro i hi <;> (try dsimp only at hi) <;>
      first
        | (exact IndexUpdate.noConfusion hi)
        | (injection hi with hval
           exact ⟨hval.symm, h1.1⟩)
        | (injection hi with hval
           exact ⟨hval.symm, h3.1⟩)
  · -- x only
    simp only [nodeUpdate, animateNode, hax, hay, if_true, if_false,
      Bool.false_eq_true, Bool.true_eq_false] at *
    set halfW := (if s.width > n.width then n.width / 2 else s.width / 2) with hhw
    split_ifs with h1 h2 <;>
      constructor <;> intro i hi <;> (try dsimp only at hi) <;>
      first
        | (exact IndexUpdate.noConfusion hi)
        | (injection hi with hval
           exact ⟨hval.symm, h1.1⟩)
        | (injection hi with hval
           exact ⟨hval.symm, horig _ h2.1⟩)
  · -- y only
    simp only [nodeUpdate, animateNode, hax, hay, ho, if_true, if_false,
      Bool.false_eq_true, Bool.true_eq_false, false_or] at *
    split_ifs with h1 h2 h3 h4 <;>
      constructor <;> intro i hi <;> (try dsimp only at hi) <;>
      first
        | (exact IndexUpdate.noConfusion hi)
        | (injection hi with hval
           refine ⟨hval.symm, ?_⟩
           omega)
  · -- no axis
    simp only [nodeUpdate, animateNode, hax, hay, if_false,
      Bool.false_eq_true] at *
    constructor <;> intro i hi <;> simp at hi

theorem foldl_applyUpdate_no_set (us : List IndexUpdate)
    (hns : ∀ u ∈ us, ¬ isSetUpdate u) (j : ℤ) :
    us.foldl applyUpdate (some j) = some j := by
  induction us with
  | nil => rfl
  | cons u rest ih =>
    have hrest : ∀ u2 ∈ rest, ¬ isSetUpdate u2 := fun u2 h2 => hns u2 (by simp [h2])
    cases u with
    | keep => exact ih hrest
    | setIfNull i => exact ih hrest
    | set i => exact absurd trivial (hns (.set i) (by simp))

theorem foldl_applyUpdate_all_keep (us : List IndexUpdate)
    (hk : ∀ u ∈ us, u = .keep) (acc : Option ℤ) :
    us.foldl applyUpdate acc = acc := by
  induction us generalizing acc with
  | nil => rfl
  | cons u rest ih =>
    have hu : u = .keep := hk u (by simp)
    subst hu
    exact ih (fun u2 h2 => hk u2 (by simp [h2])) acc

theorem foldl_applyUpdate_set (us : List IndexUpdate)
    (hs : ∃ u ∈ us, isSetUpdate u) (acc : Option ℤ) :
    ∃ i, (IndexUpdate.set i) ∈ us ∧ us.foldl applyUpdate acc = some i := by
  induction us generalizing acc with
  | nil =>
    rcases hs with ⟨u, hu, _⟩
    simp at hu
  | cons u rest ih =>
    by_cases hr : ∃ u2 ∈ rest, isSetUpdate u2
    · rcases ih hr (applyUpdate acc u) with ⟨i, hmem, heq⟩
      exact ⟨i, by simp [hmem], heq⟩
    · rcases hs with ⟨u0, hu0, hset0⟩
      rcases (List.mem_cons.mp hu0) with rfl | hu0r
      · cases u0 with
        | keep => exact absurd hset0 (by simp [isSetUpdate])
        | setIfNull i => exact absurd hset0 (by simp [isSetUpdate])
        | set i =>
          refine ⟨i, by simp, ?_⟩
          have hnone : ∀ u2 ∈ rest, ¬ isSetUpdate u2 := by
            intro u2 h2 hset2
            exact hr ⟨u2, h2, hset2⟩
          simp only [List.foldl_cons, applyUpdate]
          exact foldl_applyUpdate_no_set rest hnone i
      · exact absurd ⟨u0, hu0r, hset0⟩ hr

/-- The first loop's final accumulator is the left fold of the per-node
updates. -/
theorem runNodes_acc (s : Sorting) (so sd : Edge) :
    ∀ (nodes : List NodeItem) (prev : Option NodeItem) (acc : Option ℤ)
      (ts : List V2) (a : Option ℤ),
      runNodes s so sd prev acc nodes = some (ts, a) →
      a = (nodes.map (updateOf s so sd)).foldl applyUpdate acc := by
  intro nodes
  induction nodes with
  | nil =>
    intro prev acc ts a h
    simp only [runNodes] at h
    cases h
    rfl
  | cons n rest ih =>
    intro prev acc ts a h
    simp only [runNodes] at h
    split_ifs at h with hskip
    · rcases hrec : runNodes s so sd (some n) acc rest with _ | ⟨ts2, a2⟩
      · rw [hrec] at h
        simp at h
      · rw [hrec] at h
        cases h
        have := ih _ _ _ _ hrec
        simp only [List.map_cons, List.foldl_cons, updateOf, if_pos hskip,
          applyUpdate]
        exact this
    · rcases han : animateNode s so sd n ((rest.head?).map NodeItem.edgeOffset)
          (prev.map NodeItem.edgeOffset) with _ | ⟨t, u⟩
      · rw [han] at h
        simp at h
      · rw [han] at h
        dsimp only at h
        rcases hrec : runNodes s so sd (some n) (applyUpdate acc u) rest
            with _ | ⟨ts2, a2⟩
        · rw [hrec] at h
          simp at h
        · rw [hrec] at h
          cases h
          have hrest := ih _ _ _ _ hrec
          have hupd : updateOf s so sd n = u := by
            rw [updateOf, if_neg hskip]
            exact animateNode_update s so sd n _ _ t u han
          simp only [List.map_cons, List.foldl_cons, hupd]
          exact hrest

theorem foldl_applyUpdate_first_trigger (f : NodeItem → IndexUpdate)
    (hsiv : ∀ n i, f n = .setIfNull i → i = n.index) :
    ∀ (nodes : List NodeItem),
      (∀ n ∈ nodes, ¬ isSetUpdate (f n)) →
      nodes.Pairwise (fun a b => a.index < b.index) →
      (∃ n0 ∈ nodes, f n0 ≠ .keep) →
      ∃ n ∈ nodes, f n ≠ .keep
        ∧ (nodes.map f).foldl applyUpdate none = some n.index
        ∧ ∀ m ∈ nodes, f m ≠ .keep → n.index ≤ m.index := by
  intro nodes
  induction nodes with
  | nil =>
    rintro _ _ ⟨n0, h0, _⟩
    simp at h0
  | cons nh rest ih =>
    intro hns hpw hex
    by_cases hk : f nh = .keep
    · have hex2 : ∃ n0 ∈ rest, f n0 ≠ .keep := by
        rcases hex with ⟨n0, h0mem, h0⟩
        rcases List.mem_cons.mp h0mem with rfl | hrr
        · exact absurd hk h0
        · exact ⟨n0, hrr, h0⟩
      rcases ih (fun n hn => hns n (by simp [hn])) (List.Pairwise.of_cons hpw) hex2
          with ⟨n, hmem, hne, heq, hmin⟩
      refine ⟨n, by simp [hmem], hne, ?_, ?_⟩
      · simp only [List.map_cons, List.foldl_cons, hk, applyUpdate]
        exact heq
      · intro m hm hmne
        rcases List.mem_cons.mp hm with rfl | hmr
        · exact absurd hk hmne
        · exact hmin m hmr hmne
    · rcases hfh : f nh with _ | i | i
      · exact absurd hfh hk
      · have hi := hsiv nh i hfh
        subst hi
        refine ⟨nh, by simp, by rw [hfh]; simp, ?_, ?_⟩
        · simp only [List.map_cons, List.foldl_cons, hfh, applyUpdate]
          refine foldl_applyUpdate_no_set _ ?_ _
          intro u hu
          rcases List.mem_map.mp hu with ⟨m, hm, rfl⟩
          exact hns m (by simp [hm])
        · intro m hm hmne
          rcases List.mem_cons.mp hm with rfl | hmr
          · exact le_refl _
          · exact le_of_lt (List.rel_of_pairwise_cons hpw hmr)
      · have := hns nh (by simp)
        rw [hfh] at this
        exact absurd trivial this

/-- C2: on every reflow, if no item satisfies its swap condition the
tentative `newIndex` equals the original index; an after-marker trigger
makes `newIndex` the index of a triggering after-dragged item itself;
with only before-marker triggers, `newIndex` is the lowest index among
the triggering (before-dragged) items. -/
theorem tentative_newIndex_spec (s : Sorting) (nodes : List NodeItem)
    (r : AnimateResult)
    (ho : s.isOrigin = true)
    (hsorted : nodes.Pairwise (fun a b => a.index < b.index))
    (hr : animateNodes s nodes = some r) :
    ((∀ n ∈ nodes,
        updateOf s (sortingOffsetOf s) (scrollDifferenceOf s) n = .keep) →
      r.tentativeNewIndex = s.index)
    ∧ ((∃ n ∈ nodes,
        isSetUpdate (updateOf s (sortingOffsetOf s) (scrollDifferenceOf s) n)) →
      ∃ n ∈ nodes, s.index < n.index
        ∧ isSetUpdate (updateOf s (sortingOffsetOf s) (scrollDifferenceOf s) n)
        ∧ r.tentativeNewIndex = n.index)
    ∧ ((∀ n ∈ nodes,
        ¬ isSetUpdate (updateOf s (sortingOffsetOf s) (scrollDifferenceOf s) n)) →
      (∃ n0 ∈ nodes,
        updateOf s (sortingOffsetOf s) (scrollDifferenceOf s) n0 ≠ .keep) →
      ∃ n ∈ nodes, n.index < s.index
        ∧ updateOf s (sortingOffsetOf s) (scrollDifferenceOf s) n ≠ .keep
        ∧ r.tentativeNewIndex = n.index
        ∧ ∀ m ∈ nodes,
            updateOf s (sortingOffsetOf s) (scrollDifferenceOf s) m ≠ .keep →
            n.index ≤ m.index) := by
  unfold animateNodes at hr
  rcases hrun : runNodes s (sortingOffsetOf s) (scrollDifferenceOf s) none none nodes
      with _ | ⟨ts, acc⟩
  · rw [hrun] at hr
    simp at hr
  · rw [hrun] at hr
    dsimp only at hr
    have hacc := runNodes_acc s (sortingOffsetOf s) (scrollDifferenceOf s)
      nodes none none ts acc hrun
    have htent : r.tentativeNewIndex = acc.getD s.index := by
      cases hr
      rfl
    refine ⟨?_, ?_, ?_⟩
    · intro hkeep
      have : acc = none := by
        rw [hacc]
        refine foldl_applyUpdate_all_keep _ ?_ _
        intro u hu
        rcases List.mem_map.mp hu with ⟨m, hm, rfl⟩
        exact hkeep m hm
      rw [htent, this]
      rfl
    · intro hex
      have hus : ∃ u ∈ nodes.map (updateOf s (sortingOffsetOf s) (scrollDifferenceOf s)),
          isSetUpdate u := by
        rcases hex with ⟨n, hn, hset⟩
        exact ⟨_, List.mem_map_of_mem _ hn, hset⟩
      rcases foldl_applyUpdate_set _ hus none with ⟨i, hmem, heq⟩
      rcases List.mem_map.mp hmem with ⟨n, hn, hun⟩
      have hne : n.index ≠ s.index := by
        intro hcontra
        rw [updateOf, if_pos hcontra] at hun
        exact IndexUpdate.noConfusion hun
      have hnu : nodeUpdate s (sortingOffsetOf s) (scrollDifferenceOf s) n
          = .set i := by
        rw [updateOf, if_neg hne] at hun
        exact hun
      rcases (nodeUpdate_cases s (sortingOffsetOf s) (scrollDifferenceOf s) n ho).1
          i hnu with ⟨hieq, hgt⟩
      refine ⟨n, hn, hgt, ?_, ?_⟩
      · rw [updateOf, if_neg hne, hnu]
        trivial
      · rw [htent, hacc, heq]
        exact hieq
    · intro hns hex
      have hsiv : ∀ n i,
          updateOf s (sortingOffsetOf s) (scrollDifferenceOf s) n = .setIfNull i →
          i = n.index := by
        intro n i hn
        by_cases hne : n.index = s.index
        · rw [updateOf, if_pos hne] at hn
          exact IndexUpdate.noConfusion hn
        · rw [updateOf, if_neg hne] at hn
          exact ((nodeUpdate_cases s (sortingOffsetOf s) (scrollDifferenceOf s)
            n ho).2 i hn).1
      rcases foldl_applyUpdate_first_trigger _ hsiv nodes hns hsorted hex
          with ⟨n, hn, hne, heq, hmin⟩
      have hlt : n.index < s.index := by
        rcases hu : updateOf s (sortingOffsetOf s) (scrollDifferenceOf s) n
            with _ | i | i
        · exact absurd hu hne
        · have hnes : n.index ≠ s.index := by
            intro hcontra
            rw [updateOf, if_pos hcontra] at hu
            exact IndexUpdate.noConfusion hu
          rw [updateOf, if_neg hnes] at hu
          exact ((nodeUpdate_cases s (sortingOffsetOf s) (scrollDifferenceOf s)
            n ho).2 i hu).2
        · have := hns n hn
          rw [hu] at this
          exact absurd trivial this
      refine ⟨n, hn, hlt, hne, ?_, hmin⟩
      rw [htent, hacc, heq]
      rfl

theorem tentative_newIndex_spec_witness :
    ∃ n ∈ ([dragNode, nodeSample] : List NodeItem), ySample.index < n.index
      ∧ isSetUpdate (updateOf ySample (sortingOffsetOf ySample)
          (scrollDifferenceOf ySample) n)
      ∧ ySampleResult.tentativeNewIndex = n.index :=
  (tentative_newIndex_spec ySample [dragNode, nodeSample] ySampleResult rfl
    (by norm_num [dragNode, nodeSample])
    (by
      norm_num [animateNodes, runNodes, animateNode, ySample, dragNode,
        nodeSample, ySampleResult, sortingOffsetOf, scrollDifferenceOf,
        applyUpdate, transformString]
      exact ⟨⟨rfl, rfl⟩, rfl⟩)).2.1
    ⟨nodeSample, by simp, by
      norm_num [updateOf, nodeUpdate, animateNode, ySample, nodeSample,
        sortingOffsetOf, scrollDifferenceOf, isSetUpdate]⟩

theorem autoscroll_chain_spec_witness :
    autoscrollDirection ⟨100, 100, ⟨some 0, some 0, some 1000, some 1000⟩⟩ ⟨0, 950⟩
      = (⟨0, 1⟩, ⟨1, 0⟩) :=
  (autoscroll_chain_spec ⟨100, 100, ⟨some 0, some 0, some 1000, some 1000⟩⟩
      ⟨0, 950⟩ ⟨⟨0, 950⟩, 0, 0, none⟩).2.2.1 1000 rfl (by norm_num)

theorem arrayMove_spec_witness :
    (arrayMove [10, 20, 30] 0 2).getD 2 none = some 10
    ∧ (arrayMove [10, 20, 30] 0 2).length = 3 := by
  have h := (arrayMove_spec [10, 20, 30] 0 2 (by norm_num)).1 (by norm_num)
  exact ⟨by simpa using h.2.1, by simpa using h.1⟩

end SortableHoc
